import Mathlib

/-!
Verification development for the OLE/MIME email decoder (`src/js/msgreader.js`).

JavaScript strings are modelled as lists of UTF-16 code units (`Str := List Nat`),
byte buffers as lists of bytes (`Bytes := List Nat`).  Fallible operations
(DataView reads that can raise `RangeError`, loops that can diverge on corrupt
input) are modelled with `Except`.  The `TextDecoder` encodings used by the
source ("utf-8" fatal and non-fatal, "utf-16le", "windows-1252") are modelled
after the WHATWG encoding algorithms which browsers implement.
-/

/-- JavaScript string: a sequence of UTF-16 code units. -/
abbrev Str := List Nat

/-- Byte buffer. -/
abbrev Bytes := List Nat

/-- Embed an ASCII/BMP Lean string literal as a JS string (code-unit list). -/
def str (s : String) : Str := s.data.map Char.toNat

/-- Little-endian 16-bit read; fails (RangeError) past the end of the buffer. -/
def getU16 (b : Bytes) (off : Nat) : Except Unit Nat :=
  if off + 2 ≤ b.length then .ok (b.getD off 0 + 256 * b.getD (off+1) 0) else .error ()

/-- The little-endian 32-bit value at `off` (unchecked). -/
def u32At (b : Bytes) (off : Nat) : Nat :=
  b.getD off 0 + 256 * b.getD (off+1) 0 + 65536 * b.getD (off+2) 0 +
    16777216 * b.getD (off+3) 0

/-- Little-endian 32-bit read; fails (RangeError) past the end of the buffer. -/
def getU32 (b : Bytes) (off : Nat) : Except Unit Nat :=
  if off + 4 ≤ b.length then .ok (u32At b off) else .error ()

/-- 8-bit read; fails (RangeError) past the end of the buffer. -/
def getU8 (b : Bytes) (off : Nat) : Except Unit Nat :=
  if off < b.length then .ok (b.getD off 0) else .error ()

/-- Interpret a 32-bit unsigned value as a signed (two's-complement) integer. -/
def toInt32 (n : Nat) : Int :=
  if n < 2147483648 then (n : Int) else (n : Int) - 4294967296

/-! ## WHATWG text decoders -/

/-- UTF-8 start-byte classification: `emit u` for ASCII, `cont cp needed lo hi`
to begin a multi-byte sequence, `bad` for an invalid start byte. -/
inductive Utf8Start where
  | emit (u : Nat)
  | cont (cp needed lo hi : Nat)
  | bad
deriving DecidableEq

/-- Classify a byte in the UTF-8 decoder's initial state (WHATWG boundaries). -/
def utf8Classify (b : Nat) : Utf8Start :=
  if b ≤ 0x7F then .emit b
  else if 0xC2 ≤ b ∧ b ≤ 0xDF then .cont (b % 32) 1 0x80 0xBF
  else if b = 0xE0 then .cont (b % 16) 2 0xA0 0xBF
  else if 0xE1 ≤ b ∧ b ≤ 0xEC then .cont (b % 16) 2 0x80 0xBF
  else if b = 0xED then .cont (b % 16) 2 0x80 0x9F
  else if 0xEE ≤ b ∧ b ≤ 0xEF then .cont (b % 16) 2 0x80 0xBF
  else if b = 0xF0 then .cont (b % 8) 3 0x90 0xBF
  else if 0xF1 ≤ b ∧ b ≤ 0xF3 then .cont (b % 8) 3 0x80 0xBF
  else if b = 0xF4 then .cont (b % 8) 3 0x80 0x8F
  else .bad

/-- Encode a Unicode code point as UTF-16 code units. -/
def cpToUnits (cp : Nat) : List Nat :=
  if cp ≤ 0xFFFF then [cp]
  else [0xD800 + (cp - 0x10000) / 1024, 0xDC00 + (cp - 0x10000) % 1024]

/-- WHATWG UTF-8 decoder.  State: pending code point `cp`, remaining
continuation bytes `needed`, admissible range `lo..hi` for the next byte.
In fatal mode an error yields `none`; otherwise U+FFFD is emitted and the
offending byte is reprocessed in the initial state (inlined below). -/
def utf8Go (fatal : Bool) : Bytes → Nat → Nat → Nat → Nat → Option (List Nat)
  | [], _, needed, _, _ =>
    if needed ≠ 0 then (if fatal then none else some [0xFFFD]) else some []
  | b :: rest, cp, needed, lo, hi =>
    if needed = 0 then
      match utf8Classify b with
      | .emit u => (utf8Go fatal rest 0 0 0x80 0xBF).map (u :: ·)
      | .cont cp' n' lo' hi' => utf8Go fatal rest cp' n' lo' hi'
      | .bad => if fatal then none else (utf8Go fatal rest 0 0 0x80 0xBF).map (0xFFFD :: ·)
    else
      if lo ≤ b ∧ b ≤ hi then
        let cp' := cp * 64 + (b % 64)
        if needed = 1 then
          (utf8Go fatal rest 0 0 0x80 0xBF).map (cpToUnits cp' ++ ·)
        else
          utf8Go fatal rest cp' (needed - 1) 0x80 0xBF
      else
        -- error; the byte is restored to the stream and reprocessed in the
        -- initial state (the initial-state handling is inlined here).
        if fatal then none
        else
          match utf8Classify b with
          | .emit u => (utf8Go fatal rest 0 0 0x80 0xBF).map (fun t => 0xFFFD :: u :: t)
          | .cont cp' n' lo' hi' => (utf8Go fatal rest cp' n' lo' hi').map (0xFFFD :: ·)
          | .bad => (utf8Go fatal rest 0 0 0x80 0xBF).map (fun t => 0xFFFD :: 0xFFFD :: t)

/-- `TextDecoder('utf-8', fatal: true)`: `none` on malformed input. -/
def utf8DecodeFatal (b : Bytes) : Option Str := utf8Go true b 0 0 0x80 0xBF

/-- `TextDecoder('utf-8', fatal: false)`: U+FFFD replacement, never fails. -/
def utf8DecodeNF (b : Bytes) : Str := (utf8Go false b 0 0 0x80 0xBF).getD []

/-- Lead surrogate test. -/
def isLeadSurr (u : Nat) : Bool := 0xD800 ≤ u && u ≤ 0xDBFF

/-- Trail surrogate test. -/
def isTrailSurr (u : Nat) : Bool := 0xDC00 ≤ u && u ≤ 0xDFFF

/-- WHATWG UTF-16LE decoder (non-fatal).  `pending` holds an unmatched lead
surrogate.  Lone surrogates and a trailing odd byte become U+FFFD; on a
lead surrogate followed by a non-trail unit the unit is reprocessed. -/
def utf16leGo : Bytes → Option Nat → Str
  | [], none => []
  | [], some _ => [0xFFFD]
  | [_], none => [0xFFFD]
  | [_], some _ => [0xFFFD]
  | lo :: hi :: rest, pending =>
    let u := lo + 256 * hi
    match pending with
    | none =>
      if isLeadSurr u then utf16leGo rest (some u)
      else if isTrailSurr u then 0xFFFD :: utf16leGo rest none
      else u :: utf16leGo rest none
    | some l =>
      if isTrailSurr u then l :: u :: utf16leGo rest none
      else
        0xFFFD ::
          (if isLeadSurr u then utf16leGo rest (some u)
           else if isTrailSurr u then 0xFFFD :: utf16leGo rest none
           else u :: utf16leGo rest none)

/-- `TextDecoder('utf-16le', fatal: false)`. -/
def utf16leDecodeNF (b : Bytes) : Str := utf16leGo b none

/-- WHATWG windows-1252 single-byte mapping (bytes 0x80..0x9F remapped). -/
def win1252Byte (b : Nat) : Nat :=
  if b = 0x80 then 0x20AC else if b = 0x82 then 0x201A else if b = 0x83 then 0x192
  else if b = 0x84 then 0x201E else if b = 0x85 then 0x2026 else if b = 0x86 then 0x2020
  else if b = 0x87 then 0x2021 else if b = 0x88 then 0x2C6 else if b = 0x89 then 0x2030
  else if b = 0x8A then 0x160 else if b = 0x8B then 0x2039 else if b = 0x8C then 0x152
  else if b = 0x8E then 0x17D else if b = 0x91 then 0x2018 else if b = 0x92 then 0x2019
  else if b = 0x93 then 0x201C else if b = 0x94 then 0x201D else if b = 0x95 then 0x2022
  else if b = 0x96 then 0x2013 else if b = 0x97 then 0x2014 else if b = 0x98 then 0x2DC
  else if b = 0x99 then 0x2122 else if b = 0x9A then 0x161 else if b = 0x9B then 0x203A
  else if b = 0x9C then 0x153 else if b = 0x9E then 0x17E else if b = 0x9F then 0x178
  else b

/-- `TextDecoder('windows-1252')` (never fails). -/
def win1252Decode (b : Bytes) : Str := b.map win1252Byte

/-- The encoding argument of `dataViewToString` ('utf-8', 'utf16le', or the
'ascii' fallback which lands in the windows-1252 branch). -/
inductive Enc where
  | utf8
  | utf16le
  | ascii
deriving DecidableEq

/-- `dataViewToString(view, encoding)`: decode, then truncate at the first NUL
character (`indexOf('\0')` / `substring`). -/
def dataViewToString (b : Bytes) (e : Enc) : Str :=
  match e with
  | .utf8 =>
    match utf8DecodeFatal b with
    | some d => d.takeWhile (fun c => c ≠ 0)
    | none => (win1252Decode b).takeWhile (fun c => c ≠ 0)  -- recursive call with 'ascii'
  | .utf16le => (utf16leDecodeNF b).takeWhile (fun c => c ≠ 0)
  | .ascii => (win1252Decode b).takeWhile (fun c => c ≠ 0)

/-! ## Text-processing utilities -/

/-- JavaScript `\s` / `String.prototype.trim` whitespace set. -/
def isJsSpace (c : Nat) : Bool :=
  c = 9 || c = 10 || c = 11 || c = 12 || c = 13 || c = 32 || c = 0xA0 || c = 0x1680 ||
  (0x2000 ≤ c && c ≤ 0x200A) || c = 0x2028 || c = 0x2029 || c = 0x202F || c = 0x205F ||
  c = 0x3000 || c = 0xFEFF

/-- Remove trailing whitespace (keeps the prefix up to the last non-space). -/
def trimRight : Str → Str
  | [] => []
  | c :: rest =>
    let t := trimRight rest
    if t = [] && isJsSpace c then [] else c :: t

/-- `String.prototype.trim()`. -/
def jsTrim (s : Str) : Str := trimRight (s.dropWhile isJsSpace)

/-- `.replace(/\r\n/g, '\n')`. -/
def crlfToLf : Str → Str
  | 13 :: 10 :: rest => 10 :: crlfToLf rest
  | c :: rest => c :: crlfToLf rest
  | [] => []

/-- `.replace(/\r/g, '\n')`. -/
def crToLf (s : Str) : Str := s.map (fun c => if c = 13 then 10 else c)

/-- Emit a newline run after `\n{3,}` collapsing: runs of 3 or more become 2. -/
def emitRun (n : Nat) : Str := if 3 ≤ n then [10, 10] else List.replicate n 10

/-- `.replace(/\n{3,}/g, '\n\n')`: `n` counts the pending newline run. -/
def collapse3Go : Nat → Str → Str
  | n, [] => emitRun n
  | n, 10 :: rest => collapse3Go (n + 1) rest
  | n, c :: rest => emitRun n ++ c :: collapse3Go 0 rest

/-- `.replace(/\n{3,}/g, '\n\n')`. -/
def collapse3 (s : Str) : Str := collapse3Go 0 s

/-- `_normalizeText`: unify line endings, collapse 3+ newlines, trim. -/
def normalizeText (s : Str) : Str := jsTrim (collapse3 (crToLf (crlfToLf s)))

/-- Detector for three consecutive newlines (used to state "normalized form"). -/
def has3 : Str → Bool
  | [] => false
  | c :: rest =>
    if c = 10 then
      match rest with
      | 10 :: 10 :: _ => true
      | _ => has3 rest
    else has3 rest

/-! ## Quoted-printable decoding -/

/-- Uppercase hex digit test (`[0-9A-F]`). -/
def isUpHex (c : Nat) : Bool := (48 ≤ c && c ≤ 57) || (65 ≤ c && c ≤ 70)

/-- Value of an uppercase hex digit. -/
def upHexVal (c : Nat) : Nat := if c ≤ 57 then c - 48 else c - 55

/-- `.replace(/=(\r\n|\n)/g, '')`: drop soft line breaks, left to right. -/
def qpSoftPass : Str → Str
  | 61 :: 13 :: 10 :: rest => qpSoftPass rest
  | 61 :: 10 :: rest => qpSoftPass rest
  | c :: rest => c :: qpSoftPass rest
  | [] => []

/-- `.replace(/=([0-9A-F]{2})/g, chr)`: uppercase hex escapes only. -/
def qpHexPass : Str → Str
  | 61 :: d1 :: d2 :: rest =>
    if isUpHex d1 && isUpHex d2 then (16 * upHexVal d1 + upHexVal d2) :: qpHexPass rest
    else 61 :: qpHexPass (d1 :: d2 :: rest)
  | c :: rest => c :: qpHexPass rest
  | [] => []

/-- ASCII lower-casing of one code unit (`toLowerCase`; the inputs this model
lower-cases are ASCII: charset labels and regex-extracted email addresses). -/
def lowerChar (c : Nat) : Nat := if 65 ≤ c ∧ c ≤ 90 then c + 32 else c

/-- ASCII `toLowerCase` on a string. -/
def lowerStr (s : Str) : Str := s.map lowerChar

/-- `new TextDecoder(label, fatal:false).decode(bytes)` for the labels this
program can reach; `none` when the label is unknown (`RangeError`). -/
def textDecodeByLabel (label : Str) (b : Bytes) : Option Str :=
  if label = str "utf-8" || label = str "utf8" then some (utf8DecodeNF b)
  else if label = str "windows-1252" || label = str "latin1" ||
          label = str "iso-8859-1" || label = str "ascii" then some (win1252Decode b)
  else if label = str "utf-16le" || label = str "utf-16" then some (utf16leDecodeNF b)
  else none

/-- `_decodeQuotedPrintable(str, charset)`. -/
def decodeQuotedPrintable (s : Str) (charset : Str) : Str :=
  if s = [] then []
  else
    let decoded := qpHexPass (qpSoftPass s)
    let bytes := decoded.map (· % 256)   -- Uint8Array from charCodeAt
    let encoding := lowerStr charset
    let encoding := if encoding = str "us-ascii" then str "utf-8" else encoding
    match textDecodeByLabel encoding bytes with
    | some t => t
    | none => decoded                    -- catch: return the pre-decode string

/-! ## Data model -/

/-- A decoded MAPI property value (`convertPropertyValue` results). -/
inductive PropValue where
  | text (s : Str)
  | bytes (b : Bytes)
  | int (n : Nat)
  | bool (b : Bool)
  | time (ms : Int)
deriving DecidableEq

/-- JavaScript truthiness of a property value (or `null`). -/
def truthy : Option PropValue → Bool
  | none => false
  | some (.text s) => !s.isEmpty
  | some (.bytes _) => true
  | some (.int n) => n != 0
  | some (.bool b) => b
  | some (.time _) => true

/-- A recipient record (`{recipientType, name, email}`). -/
structure Recipient where
  recipientType : PropValue
  name : PropValue
  email : Str
deriving DecidableEq

/-- The decoded message record returned to the caller. -/
structure Record where
  subject : Option PropValue
  body : Option PropValue
  bodyHTML : Option PropValue
  recipients : List Recipient
deriving DecidableEq

/-- Result of `_scanBufferForMimeText` (`toAddr` is the `to` field; `to` is
reserved in this Lean environment). -/
structure MimeData where
  subject : Option Str
  toAddr : Option Str
  cc : Option Str
  body : Option Str
deriving DecidableEq

/-! ## Plain substring and regex-style searching -/

/-- `indexOf` for a plain substring, as an `Option`. -/
def subIndex (pat : Str) : Str → Option Nat
  | [] => if pat = [] then some 0 else none
  | c :: rest =>
    if pat.isPrefixOf (c :: rest) then some 0 else (subIndex pat rest).map (· + 1)

/-- `indexOf` with the JavaScript `-1` convention. -/
def idxOf (pat s : Str) : Int :=
  match subIndex pat s with
  | some i => (i : Int)
  | none => -1

/-- `indexOf(pat, fromIndex)` with the `-1` convention. -/
def idxOfFrom (pat s : Str) (start0 : Int) : Int :=
  let f := (min (max start0 0) (s.length : Int)).toNat
  match subIndex pat (s.drop f) with
  | some i => ((f + i : Nat) : Int)
  | none => -1

/-- `String.prototype.substring` with clamping and argument swapping. -/
def jsSubstring (s : Str) (a b : Int) : Str :=
  let n := (s.length : Int)
  let a' := (min (max a 0) n).toNat
  let b' := (min (max b 0) n).toNat
  if a' ≤ b' then (s.drop a').take (b' - a') else (s.drop b').take (a' - b')

/-- Case-insensitive prefix test (ASCII folding; pattern literals are ASCII). -/
def ciStartsWith : Str → Str → Bool
  | [], _ => true
  | _ :: _, [] => false
  | p :: ps, c :: cs => lowerChar p == lowerChar c && ciStartsWith ps cs

/-- Word character for `\b` (`[A-Za-z0-9_]`). -/
def isWordChar (c : Nat) : Bool :=
  (48 ≤ c && c ≤ 57) || (65 ≤ c && c ≤ 90) || (97 ≤ c && c ≤ 122) || c = 95

/-- JavaScript line terminators (`.` exclusions, `m`-flag anchors). -/
def isLineTerm (c : Nat) : Bool := c = 10 || c = 13 || c = 0x2028 || c = 0x2029

/-- Index of the first suffix satisfying `test` (regex-engine leftmost scan). -/
def scanIdx (test : Str → Bool) : Str → Option Nat
  | [] => if test [] then some 0 else none
  | c :: rest => if test (c :: rest) then some 0 else (scanIdx test rest).map (· + 1)

/-- Test for `pat` followed by `\s*` followed by `lit` at the head (both
case-insensitive), e.g. `Content-Type:\s*multipart`. -/
def patSpaceLit (pat lit l : Str) : Bool :=
  ciStartsWith pat l && ciStartsWith lit ((l.drop pat.length).dropWhile isJsSpace)

/-- `/Content-Type:\s*multipart/i.test(s)`. -/
def multipartTest (s : Str) : Bool :=
  (scanIdx (patSpaceLit (str "Content-Type:") (str "multipart")) s).isSome

/-- Capture of `\s*([^\r\n]+)` right after a matched field name: `\s*` is
greedy but backtracks (largest `j` first) until the capture is nonempty. -/
def fvBack (u : Str) : Nat → Option Str
  | 0 =>
    match u.head? with
    | some c => if c ≠ 13 ∧ c ≠ 10 then some (u.takeWhile fun c => c ≠ 13 && c ≠ 10) else none
    | none => none
  | j + 1 =>
    let v := u.drop (j + 1)
    match v.head? with
    | some c =>
      if c ≠ 13 ∧ c ≠ 10 then some (v.takeWhile fun c => c ≠ 13 && c ≠ 10) else fvBack u j
    | none => fvBack u j

/-- Value of `\s*([^\r\n]+)` at the head of `u`. -/
def fieldValue (u : Str) : Option Str := fvBack u ((u.takeWhile isJsSpace).length)

/-- Scan for `\b<pat>` (ci) and capture `\s*([^\r\n]+)`; `prev` is the
character before the current position (for the word boundary). -/
def findFieldGo (pat : Str) : Option Nat → Str → Option Str
  | _, [] => none
  | prev, c :: rest =>
    let boundary := match prev with
      | none => true
      | some p => !isWordChar p
    if boundary && ciStartsWith pat (c :: rest) then
      match fieldValue ((c :: rest).drop pat.length) with
      | some v => some v
      | none => findFieldGo pat (some c) rest
    else findFieldGo pat (some c) rest

/-- `findField(name)`: first `\b<name>:\s*([^\r\n]+)` match, trimmed. -/
def findField (name s : Str) : Option Str := (findFieldGo (name ++ [58]) none s).map jsTrim

/-- Scan for `^<pat>` (ci, `m` flag) and capture `\s*([^\r\n]+)`. -/
def anchoredFieldGo (pat : Str) : Option Nat → Str → Option Str
  | _, [] => none
  | prev, c :: rest =>
    let anchor := match prev with
      | none => true
      | some p => isLineTerm p
    if anchor && ciStartsWith pat (c :: rest) then
      match fieldValue ((c :: rest).drop pat.length) with
      | some v => some v
      | none => anchoredFieldGo pat (some c) rest
    else anchoredFieldGo pat (some c) rest

/-- `/^<pat>\s*<lit>/im.test(s)` (anchored at a line start). -/
def anchoredTestGo (pat lit : Str) : Option Nat → Str → Bool
  | _, [] => false
  | prev, c :: rest =>
    let anchor := match prev with
      | none => true
      | some p => isLineTerm p
    (anchor && patSpaceLit pat lit (c :: rest)) || anchoredTestGo pat lit (some c) rest

/-- `/charset=["']?([^"';\r\n]+)/i`: first match's capture. -/
def charsetSearchGo : Str → Option Str
  | [] => none
  | c :: rest =>
    (if ciStartsWith (str "charset=") (c :: rest) then
      let u := (c :: rest).drop 8
      let u' := match u.head? with
        | some 34 => u.drop 1
        | some 39 => u.drop 1
        | _ => u
      let cap := u'.takeWhile fun x => x ≠ 34 && x ≠ 39 && x ≠ 59 && x ≠ 13 && x ≠ 10
      if cap.isEmpty then none else some cap
    else none).orElse fun _ => charsetSearchGo rest

/-! ## Address parsing -/

/-- `[a-z0-9._%+-]` with the `i` flag. -/
def isLocalChar (c : Nat) : Bool :=
  (48 ≤ c && c ≤ 57) || (65 ≤ c && c ≤ 90) || (97 ≤ c && c ≤ 122) ||
  c = 46 || c = 95 || c = 37 || c = 43 || c = 45

/-- `[a-z0-9.-]` with the `i` flag. -/
def isDomainChar (c : Nat) : Bool :=
  (48 ≤ c && c ≤ 57) || (65 ≤ c && c ≤ 90) || (97 ≤ c && c ≤ 122) || c = 46 || c = 45

/-- `[a-z]` with the `i` flag. -/
def isAlphaChar (c : Nat) : Bool := (65 ≤ c && c ≤ 90) || (97 ≤ c && c ≤ 122)

/-- Backtracking for `[a-z0-9.-]+\.[a-z]{2,}`: try the dot at position `j`
(largest first, greedy `+`); returns the dot position and the letter run. -/
def emailDotFind (v2 : Str) : Nat → Option (Nat × Nat)
  | 0 => none
  | j + 1 =>
    let t := ((v2.drop (j + 2)).takeWhile isAlphaChar).length
    if v2.getD (j + 1) 0 = 46 && 2 ≤ t then some (j + 1, t) else emailDotFind v2 j

/-- Length of a match of `[a-z0-9._%+-]+@[a-z0-9.-]+\.[a-z]{2,}/i` at the
head of `v`, if any. -/
def emailMatchLen (v : Str) : Option Nat :=
  let k := (v.takeWhile isLocalChar).length
  if k = 0 then none
  else
    match (v.drop k).head? with
    | some 64 =>
      let v2 := v.drop (k + 1)
      match emailDotFind v2 ((v2.takeWhile isDomainChar).length) with
      | some (j, t) => some (k + 1 + j + 1 + t)
      | none => none
    | _ => none

/-- Leftmost match of the email pattern (the `String.prototype.match` search). -/
def emailSearch : Str → Option Str
  | [] => none
  | c :: rest =>
    match emailMatchLen (c :: rest) with
    | some n => some ((c :: rest).take n)
    | none => emailSearch rest

/-- Greedy `^(.*)<([^>]+)>$` matching on `core = addr.dropLast` (the final
`>` already checked): try the `<` at index `i-1`, largest first. -/
def angleFind (core : Str) : Nat → Option (Str × Str)
  | 0 => none
  | i + 1 =>
    if core.getD i 0 = 60 && (core.take i).all (fun c => !isLineTerm c) &&
       !(core.drop (i + 1)).isEmpty && !(core.drop (i + 1)).contains 62 then
      some (core.take i, core.drop (i + 1))
    else angleFind core i

/-- `addr.match(/^(.*)<([^>]+)>$/)`: the (greedy) name and email groups. -/
def angleMatch (addr : Str) : Option (Str × Str) :=
  match addr.getLast? with
  | some 62 => angleFind addr.dropLast addr.dropLast.length
  | _ => none

/-- `.replace(/^"|"$/g, '')`. -/
def stripQuotes (s : Str) : Str :=
  let s1 := match s with
    | 34 :: rest => rest
    | _ => s
  match s1.getLast? with
  | some 34 => s1.dropLast
  | _ => s1

/-- Remove the first occurrence of `pat` (JS `replace` with a string pattern
and an empty replacement). -/
def removeFirst (s pat : Str) : Str :=
  match subIndex pat s with
  | some i => s.take i ++ s.drop (i + pat.length)
  | none => s

/-- `parseAddress` result. -/
structure ParsedAddr where
  name : Str
  email : Option Str
deriving DecidableEq

/-- `parseAddress(addr)`. -/
def parseAddress (addr0 : Str) : ParsedAddr :=
  if addr0.isEmpty then ⟨[], none⟩
  else
    let addr := jsTrim addr0
    let ne := match angleMatch addr with
      | some (n, e) => (stripQuotes (jsTrim n), jsTrim e)
      | none => (addr, addr)
    match emailSearch ne.2 with
    | some m =>
      let name' :=
        if ne.1 = addr then (if ne.1 = m then [] else jsTrim (removeFirst ne.1 m))
        else ne.1
      ⟨name', some m⟩
    | none => ⟨ne.1, none⟩

/-- Split on a character predicate, keeping empty pieces (JS `split`). -/
def splitOn (p : Nat → Bool) : Str → List Str
  | [] => [[]]
  | c :: rest =>
    if p c then [] :: splitOn p rest
    else
      match splitOn p rest with
      | piece :: more => (c :: piece) :: more
      | [] => [[c]]

/-- `_extractAddresses` on a non-null display string: split on `[;,]`,
parse each, keep lowercased emails. -/
def extractAddressesStr (d : Str) : List Str :=
  ((splitOn (fun c => c = 59 || c = 44) d).filterMap
    (fun a => (parseAddress a).email)).map lowerStr

/-- `_extractAddresses(displayString)` with its truthiness guard; a display
value that is not a string would fault at `.split` in the source and cannot
arise from the property paths that feed it. -/
def extractAddresses (d : Option PropValue) : List Str :=
  match d with
  | some (.text s) => if s.isEmpty then [] else extractAddressesStr s
  | _ => []

/-- Split on commas outside double quotes:
`,(?=(?:(?:[^"]*"){2})*[^"]*$)` (even number of quotes to the right). -/
def splitCommasQ : Str → List Str
  | [] => [[]]
  | c :: rest =>
    if c = 44 && (rest.countP (fun x => x = 34)) % 2 = 0 then [] :: splitCommasQ rest
    else
      match splitCommasQ rest with
      | piece :: more => (c :: piece) :: more
      | [] => [[c]]

/-! ## MIME scanning (`_scanBufferForMimeText`, `parseMime`) -/

/-- `_scanBufferForMimeText` on the decoded text (the memoised cache and the
re-decode of a `null` argument are handled at the call sites, which always
pass the UTF-8 non-fatal decode of the buffer). -/
def scanBufferForMimeText (rawText : Str) : MimeData :=
  let subject := findField (str "Subject") rawText
  let toV := findField (str "To") rawText
  let ccV := findField (str "Cc") rawText
  let h1 := idxOf (str "\r\n\r\n") rawText
  let headerEnd := if h1 = -1 then idxOf (str "\n\n") rawText else h1
  if headerEnd = -1 then ⟨subject, toV, ccV, none⟩
  else
    let bodyText := rawText.drop (headerEnd.toNat + 4)
    if multipartTest rawText then
      match scanIdx (patSpaceLit (str "Content-Type:") (str "text/plain")) bodyText with
      | none => ⟨subject, toV, ccV, some bodyText⟩
      | some pIdx =>
        let rnrn := idxOfFrom (str "\r\n\r\n") bodyText pIdx
        let nn := idxOfFrom (str "\n\n") bodyText pIdx
        let startOff : Int × Int :=
          if rnrn ≠ -1 ∧ (nn = -1 ∨ rnrn < nn) then (rnrn, 4)
          else if nn ≠ -1 then (nn, 2)
          else (-1, 0)
        let partHeaders := jsSubstring bodyText pIdx startOff.1
        let isQp := (scanIdx (patSpaceLit (str "Content-Transfer-Encoding:")
          (str "quoted-printable")) partHeaders).isSome
        let charset := (charsetSearchGo partHeaders).getD (str "utf-8")
        let bodyText :=
          if startOff.1 ≠ -1 then
            let boundRN := idxOfFrom (str "\r\n--") bodyText (startOff.1 + startOff.2)
            let boundN := idxOfFrom (str "\n--") bodyText (startOff.1 + startOff.2)
            let endI :=
              if boundRN ≠ -1 ∧ (boundN = -1 ∨ boundRN < boundN) then boundRN
              else if boundN ≠ -1 then boundN
              else (bodyText.length : Int)
            jsTrim (jsSubstring bodyText (startOff.1 + startOff.2) endI)
          else bodyText
        ⟨subject, toV, ccV,
          some (if isQp then decodeQuotedPrintable bodyText charset else bodyText)⟩
    else
      let isQp := anchoredTestGo (str "Content-Transfer-Encoding:")
        (str "quoted-printable") none rawText
      let charset := (charsetSearchGo rawText).getD (str "utf-8")
      ⟨subject, toV, ccV,
        some (if isQp then decodeQuotedPrintable bodyText charset else bodyText)⟩

/-- `parseMimeAddresses`: split a header value on commas outside quotes and
collect the parseable addresses with the given recipient type. -/
def parseMimeAddresses (addrString : Option Str) (ty : Nat) : List Recipient :=
  match addrString with
  | none => []
  | some s =>
    if s.isEmpty then []
    else
      (splitCommasQ s).filterMap fun a =>
        let p := parseAddress a
        match p.email with
        | some e => some ⟨.int ty, .text p.name, e⟩
        | none => none

/-- `parseMime()`: full MIME-path decode of a buffer.  The record it returns
is built from the scan; the property-table writes it also performs only
mirror these same values. -/
def parseMime (buf : Bytes) : Record :=
  let rawText := utf8DecodeNF buf
  let mimeData := scanBufferForMimeText rawText
  let recipients :=
    parseMimeAddresses mimeData.toAddr 1 ++
    parseMimeAddresses mimeData.cc 2 ++
    (match anchoredFieldGo (str "Bcc:") none rawText with
     | some b => parseMimeAddresses (some (jsTrim b)) 3
     | none => [])
  ⟨mimeData.subject.map .text, mimeData.body.map .text, none, recipients⟩

/-! ## HTML stripping (`_stripHtml`, DOM parser unavailable: the source's
regex fallback branch is the one modelled) -/

/-- Lazy delimited-block removal, e.g. `/<head[\s\S]*?<\/head>/gi`. -/
def removeDelimGo (o c : Str) : Nat → Str → Str
  | 0, l => l
  | fuel + 1, l =>
    match scanIdx (fun suf => ciStartsWith o suf) l with
    | none => l
    | some i =>
      let after := l.drop (i + o.length)
      match scanIdx (fun suf => ciStartsWith c suf) after with
      | none => l
      | some j => l.take i ++ removeDelimGo o c fuel (after.drop (j + c.length))

/-- Global removal of `o …lazy… c` blocks. -/
def removeDelim (o c s : Str) : Str := removeDelimGo o c s.length s

/-- `/<\?xml[^>]*\?>/gi` removal. -/
def xmlDeclGo : Nat → Str → Str
  | 0, l => l
  | _ + 1, [] => []
  | fuel + 1, ch :: rest =>
    let l := ch :: rest
    if ciStartsWith (str "<?xml") l then
      let u := l.drop 5
      let m := (u.takeWhile (fun x => x ≠ 62)).length
      if m < u.length ∧ 1 ≤ m ∧ u.getD (m - 1) 0 = 63 then
        xmlDeclGo fuel (u.drop (m + 1))
      else ch :: xmlDeclGo fuel rest
    else ch :: xmlDeclGo fuel rest

/-- CSS selector-block characters `[.#a-z0-9_]` (with `i`). -/
def isCssSel (c : Nat) : Bool :=
  c = 46 || c = 35 || (48 ≤ c && c ≤ 57) || (65 ≤ c && c ≤ 90) || (97 ≤ c && c ≤ 122) || c = 95

/-- Outlook CSS artifact removal: selector run, `\s*`, brace block with a
nonempty body (the braces are code units 123 and 125). -/
def cssArtifactGo : Nat → Str → Str
  | 0, l => l
  | _ + 1, [] => []
  | fuel + 1, ch :: rest =>
    let l := ch :: rest
    let k := (l.takeWhile isCssSel).length
    if 1 ≤ k then
      let u := l.drop k
      let w := (u.takeWhile isJsSpace).length
      if u.getD w 0 = 123 then
        let v := u.drop (w + 1)
        let m := (v.takeWhile (fun x => x ≠ 125)).length
        if 1 ≤ m ∧ m < v.length then cssArtifactGo fuel (v.drop (m + 1))
        else ch :: cssArtifactGo fuel rest
      else ch :: cssArtifactGo fuel rest
    else ch :: cssArtifactGo fuel rest

/-- The block-level tag alternation `(br|p|div|tr|li|h1|h2|h3|h4|h5|h6)`,
tried in the regex's order; returns the matched tag length. -/
def blockTagAlt (l : Str) : Option Nat :=
  if ciStartsWith (str "br") l then some 2
  else if ciStartsWith (str "p") l then some 1
  else if ciStartsWith (str "div") l then some 3
  else if ciStartsWith (str "tr") l then some 2
  else if ciStartsWith (str "li") l then some 2
  else if ciStartsWith (str "h1") l then some 2
  else if ciStartsWith (str "h2") l then some 2
  else if ciStartsWith (str "h3") l then some 2
  else if ciStartsWith (str "h4") l then some 2
  else if ciStartsWith (str "h5") l then some 2
  else if ciStartsWith (str "h6") l then some 2
  else none

/-- `/\s*<(br|p|div|...)[^>]*>\s*/gi` → `'\n'`. -/
def blockTagGo : Nat → Str → Str
  | 0, l => l
  | _ + 1, [] => []
  | fuel + 1, ch :: rest =>
    let l := ch :: rest
    let w := (l.takeWhile isJsSpace).length
    let u := l.drop w
    (match u.head? with
     | some 60 =>
       match blockTagAlt (u.drop 1) with
       | some tl =>
         let v := u.drop (1 + tl)
         let m := (v.takeWhile (fun x => x ≠ 62)).length
         if m < v.length then
           let w2 := ((v.drop (m + 1)).takeWhile isJsSpace).length
           some (10 :: blockTagGo fuel ((v.drop (m + 1)).drop w2))
         else none
       | none => none
     | _ => none).getD (ch :: blockTagGo fuel rest)

/-- `/<[^>]+>/g` removal (the no-DOM fallback). -/
def tagStripGo : Nat → Str → Str
  | 0, l => l
  | _ + 1, [] => []
  | fuel + 1, 60 :: rest =>
    let m := (rest.takeWhile (fun x => x ≠ 62)).length
    if 1 ≤ m ∧ m < rest.length then tagStripGo fuel (rest.drop (m + 1))
    else 60 :: tagStripGo fuel rest
  | fuel + 1, c :: rest => c :: tagStripGo fuel rest

/-- `_stripHtml(html)` on a string. -/
def stripHtmlStr (html : Str) : Str :=
  if html.isEmpty then []
  else
    let t := removeDelim (str "<head") (str "</head>") html
    let t := removeDelim (str "<style") (str "</style>") t
    let t := removeDelim (str "<script") (str "</script>") t
    let t := removeDelim (str "<!--") (str "-->") t
    let t := xmlDeclGo t.length t
    let t := cssArtifactGo t.length t
    let t := blockTagGo t.length t
    let t := tagStripGo t.length t
    normalizeText t

/-- `_stripHtml` applied to a property value: the `typeof html !== 'string'`
guard returns `''` for anything that is not a string. -/
def stripHtmlVal (v : Option PropValue) : Str :=
  match v with
  | some (.text s) => stripHtmlStr s
  | _ => []

/-! ## Compound-file reader -/

/-- Uncaught decode exceptions (and a marker for source-level divergence). -/
inductive DecodeErr where
  | tooSmall      -- 'File too small to be a valid OLE file'
  | invalidSig    -- 'Invalid OLE file signature.'
  | oob           -- RangeError from an unchecked DataView read
  | typeError     -- calling a string method on a non-string property value
  | diverged      -- a while-loop of the source that does not terminate
deriving DecidableEq

/-- Checked reads lifted into the decoder's error type. -/
def rdU16 (b : Bytes) (off : Nat) : Except DecodeErr Nat :=
  (getU16 b off).mapError fun _ => .oob

/-- 32-bit checked read in the decoder's error type. -/
def rdU32 (b : Bytes) (off : Nat) : Except DecodeErr Nat :=
  (getU32 b off).mapError fun _ => .oob

/-- 8-bit checked read in the decoder's error type. -/
def rdU8 (b : Bytes) (off : Nat) : Except DecodeErr Nat :=
  (getU8 b off).mapError fun _ => .oob

/-- Parsed compound-file header (`readHeader` result), with the derived
sector sizes.  `2^shift` is exact here; the source computes it as a float,
which differs only for shifts far beyond any readable buffer. -/
structure CFHeader where
  sectorShift : Nat
  miniSectorShift : Nat
  fatSectors : Nat
  directoryFirstSector : Nat
  miniFatFirstSector : Nat
  miniFatTotalSectors : Nat
  difFirstSector : Nat
  difTotalSectors : Nat
  sectorSize : Nat
  miniSectorSize : Nat
deriving DecidableEq

/-- `readHeader()`: size check, signature check, header fields. -/
def readHeader (buf : Bytes) : Except DecodeErr CFHeader := do
  if buf.length < 512 then throw .tooSmall
  else do
    let sig ← rdU32 buf 0
    if sig ≠ 0xE011CFD0 then throw .invalidSig
    else do
      let ss ← rdU16 buf 30
      let mss ← rdU16 buf 32
      let fs ← rdU32 buf 44
      let dfs ← rdU32 buf 48
      let mffs ← rdU32 buf 60
      let mfts ← rdU32 buf 64
      let diffs ← rdU32 buf 68
      let difts ← rdU32 buf 72
      pure ⟨ss, mss, fs, dfs, mffs, mfts, diffs, difts, 2 ^ ss, 2 ^ mss⟩

/-- End-of-chain / free-sector sentinels. -/
def isSentinel (s : Nat) : Bool := s = 0xFFFFFFFE || s = 0xFFFFFFFF

/-- The up-to-109 FAT sector positions stored inline in the header. -/
def readFATInline (buf : Bytes) (fatSectors : Nat) : Except DecodeErr (List Nat) :=
  (List.range (min 109 fatSectors)).foldlM
    (fun acc i => do
      let s ← rdU32 buf (76 + i * 4)
      pure (if isSentinel s then acc else acc ++ [s]))
    []

/-- DIFAT chain walk: each DIFAT sector holds `entriesPerSector - 1` FAT
positions plus a successor pointer; bounded by `difTotalSectors` (the
`remaining` argument).  `entriesPerSector = 0` would produce a negative
read offset in the source (RangeError), modelled as `oob`. -/
def difGo (buf : Bytes) (sectorSize entriesPerSector : Nat) :
    Nat → Nat → List Nat → Except DecodeErr (List Nat)
  | 0, _, acc => pure acc
  | remaining + 1, difSector, acc =>
    if isSentinel difSector then pure acc
    else do
      let difOffset := 512 + difSector * sectorSize
      let acc ← (List.range (entriesPerSector - 1)).foldlM
        (fun a j => do
          let s ← rdU32 buf (difOffset + j * 4)
          pure (if isSentinel s then a else a ++ [s]))
        acc
      if entriesPerSector = 0 then throw .oob
      else do
        let next ← rdU32 buf (difOffset + (entriesPerSector - 1) * 4)
        difGo buf sectorSize entriesPerSector remaining next acc

/-- `readFAT()`: collect FAT sector positions (inline then DIFAT), then
concatenate the FAT sectors' contents, skipping reads past the buffer end. -/
def readFAT (buf : Bytes) (h : CFHeader) : Except DecodeErr (List Nat) := do
  let entriesPerSector := h.sectorSize / 4
  let positions ← readFATInline buf h.fatSectors
  let positions ←
    if 0 < h.difTotalSectors then
      difGo buf h.sectorSize entriesPerSector h.difTotalSectors h.difFirstSector positions
    else pure positions
  pure (positions.foldl
    (fun fat p =>
      fat ++ (List.range entriesPerSector).filterMap (fun j =>
        let off := 512 + p * h.sectorSize + j * 4
        if off + 4 ≤ buf.length then some (u32At buf off) else none))
    [])

/-- `readMiniFAT()` chain walk, bounded by the declared mini-FAT sector
count; in-sector reads are bounds-checked by the source. -/
def miniFatGo (buf : Bytes) (h : CFHeader) (fat : List Nat) :
    Nat → Nat → List Nat → List Nat
  | 0, _, acc => acc
  | remaining + 1, sector, acc =>
    if isSentinel sector then acc
    else
      let offset := 512 + sector * h.sectorSize
      let acc := acc ++ (List.range (h.sectorSize / 4)).filterMap (fun i =>
        if offset + i * 4 + 4 ≤ buf.length then some (u32At buf (offset + i * 4)) else none)
      if fat.length ≤ sector then acc
      else miniFatGo buf h fat remaining (fat.getD sector 0) acc

/-- `readMiniFAT()`. -/
def readMiniFAT (buf : Bytes) (h : CFHeader) (fat : List Nat) : List Nat :=
  if h.miniFatFirstSector = 0xFFFFFFFE then []
  else miniFatGo buf h fat h.miniFatTotalSectors h.miniFatFirstSector []

/-- A directory entry; sibling/child references are signed (-1 = none). -/
structure DirEntry where
  name : Str
  type : Nat
  startSector : Nat
  size : Nat
  leftSiblingId : Int
  rightSiblingId : Int
  childId : Int
  id : Nat
deriving DecidableEq

/-- `readDirectoryEntry(offset)`; the caller has checked `offset + 128` is in
bounds, which also covers the name `DataView` construction. -/
def readDirectoryEntry (buf : Bytes) (offset : Nat) :
    Except DecodeErr (Option DirEntry) := do
  let nameLen ← rdU16 buf (offset + 64)
  if nameLen = 0 ∨ 64 < nameLen then pure none
  else do
    let name := dataViewToString ((buf.drop offset).take (min nameLen 64)) .utf16le
    let ty ← rdU8 buf (offset + 66)
    if ty ≠ 1 ∧ ty ≠ 2 ∧ ty ≠ 5 then pure none
    else do
      let startSector ← rdU32 buf (offset + 116)
      let size ← rdU32 buf (offset + 120)
      let l ← rdU32 buf (offset + 68)
      let r ← rdU32 buf (offset + 72)
      let c ← rdU32 buf (offset + 76)
      pure (some ⟨name, ty, startSector, size, toInt32 l, toInt32 r, toInt32 c, 0⟩)

/-- The per-sector entry loop of `readDirectory` (breaks at the first entry
slot that would cross the buffer end). -/
def dirSectorEntries (buf : Bytes) (offset : Nat) :
    Nat → Nat → Except DecodeErr (List DirEntry)
  | 0, _ => pure []
  | count + 1, i =>
    let entryOffset := offset + i * 128
    if buf.length < entryOffset + 128 then pure []
    else do
      let e ← readDirectoryEntry buf entryOffset
      let rest ← dirSectorEntries buf offset count (i + 1)
      pure (match e with
        | some en => if en.name.isEmpty then rest else en :: rest
        | none => rest)

/-- `readDirectory()` sector walk.  The source's loop has no step bound of
its own; a directory chain longer than `fat.length + 1` steps must revisit a
sector and therefore cycle, which diverges in the source — the fuel models
exactly that. -/
def readDirGo (buf : Bytes) (h : CFHeader) (fat : List Nat) :
    Nat → Nat → List DirEntry → Except DecodeErr (List DirEntry)
  | 0, _, _ => throw .diverged
  | fuel + 1, sector, acc =>
    if isSentinel sector then pure acc
    else do
      let es ← dirSectorEntries buf (512 + sector * h.sectorSize) (h.sectorSize / 128) 0
      let acc := acc ++ es
      if fat.length ≤ sector then pure acc
      else readDirGo buf h fat fuel (fat.getD sector 0) acc

/-- `readDirectory()` plus the sequential id assignment. -/
def readDirectory (buf : Bytes) (h : CFHeader) (fat : List Nat) :
    Except DecodeErr (List DirEntry) := do
  let es ← readDirGo buf h fat (fat.length + 2) h.directoryFirstSector []
  pure (es.mapIdx (fun i e => { e with id := i }))

/-! ## Sector-chain reading (`_readSectorChain`, `readStream`) -/

/-- Result of a sector-chain walk: the stream bytes (the `Uint8Array` of
length `totalSize`), the number of bytes actually copied (the final
`dataOffset`), and the number of chain-follow steps (`sector = fat[sector]`
assignments) — the last two instrument the loop for the stated properties. -/
structure ChainOut where
  data : Bytes
  copied : Nat
  steps : Nat
deriving DecidableEq

/-- The `_readSectorChain` while-loop.  The mini path indexes a `Uint8Array`
(out-of-range gives `undefined`, stored as 0); the regular path uses
`DataView.getUint8`, which throws past the end.  A `sectorSize` of 0 makes
the source loop forever; here the fuel drains to `diverged`. -/
def chainGo (isMini : Bool) (src : Bytes) (fat : List Nat)
    (sectorSize totalSize : Nat) :
    Nat → Nat → Nat → Nat → Bytes → Except DecodeErr ChainOut
  | 0, _, _, _, _ => throw .diverged
  | fuel + 1, sector, dataOffset, steps, acc =>
    if isSentinel sector ∨ totalSize ≤ dataOffset then
      pure ⟨acc ++ List.replicate (totalSize - dataOffset) 0, dataOffset, steps⟩
    else
      let offset := if isMini then sector * sectorSize else 512 + sector * sectorSize
      let copy := min sectorSize (totalSize - dataOffset)
      if isMini ∨ copy = 0 ∨ offset + copy ≤ src.length then
        let acc := acc ++ (List.range copy).map (fun i => src.getD (offset + i) 0)
        let dataOffset := dataOffset + copy
        if fat.length ≤ sector then
          pure ⟨acc ++ List.replicate (totalSize - dataOffset) 0, dataOffset, steps⟩
        else
          chainGo isMini src fat sectorSize totalSize fuel
            (fat.getD sector 0) dataOffset (steps + 1) acc
      else throw .oob

/-- `_readSectorChain(startSector, sectorSize, fatArray, totalSize)`. -/
def readSectorChain (isMini : Bool) (src : Bytes) (fat : List Nat)
    (sectorSize totalSize startSector : Nat) : Except DecodeErr ChainOut :=
  chainGo isMini src fat sectorSize totalSize (totalSize + 1) startSector 0 0 []

/-- `readStream(entry)`.  The recursive `readStream(root)` call for the
mini-stream source is inlined: the root entry has type 5 and so always takes
the size-0 or regular-FAT branch. -/
def readStreamFn (buf : Bytes) (h : CFHeader) (fat miniFat : List Nat)
    (entries : List DirEntry) (entry : DirEntry) : Except DecodeErr ChainOut :=
  if entry.size = 0 then pure ⟨[], 0, 0⟩
  else if entry.size < 4096 ∧ entry.type ≠ 5 then
    match entries.find? (fun e => e.type = 5) with
    | none => pure ⟨[], 0, 0⟩
    | some root => do
      let miniStream ←
        if root.size = 0 then pure (⟨[], 0, 0⟩ : ChainOut)
        else readSectorChain false buf fat h.sectorSize root.size root.startSector
      readSectorChain true miniStream.data miniFat h.miniSectorSize entry.size
        entry.startSector
  else readSectorChain false buf fat h.sectorSize entry.size entry.startSector

/-! ## Property store -/

/-- Raw property: id, type tag, stream bytes. -/
structure RawProp where
  id : Nat
  type : Nat
  data : Bytes
deriving DecidableEq

/-- Insert keeping ascending id order: JavaScript objects with integer-like
keys enumerate (`Object.values`) in ascending numeric order. -/
def insertRaw (m : List RawProp) (p : RawProp) : List RawProp :=
  match m with
  | [] => [p]
  | q :: rest =>
    if p.id < q.id then p :: q :: rest
    else if p.id = q.id then p :: rest
    else q :: insertRaw rest p

/-- Lookup `rawProps[id]`. -/
def lookupRaw (m : List RawProp) (id : Nat) : Option RawProp :=
  m.find? (fun p => p.id = id)

/-- Hex digit (any case) for `parseInt(s, 16)`. -/
def isHexDigitChar (c : Nat) : Bool :=
  (48 ≤ c && c ≤ 57) || (65 ≤ c && c ≤ 70) || (97 ≤ c && c ≤ 102)

/-- Value of a hex digit. -/
def hexCharVal (c : Nat) : Nat :=
  if c ≤ 57 then c - 48 else if c ≤ 70 then c - 55 else c - 87

/-- `parseInt(s, 16)`: skip whitespace, optional sign, optional `0x`,
maximal run of hex digits; no digits ↦ NaN ↦ `none`. -/
def parseIntHex (s : Str) : Option Int :=
  let s1 := s.dropWhile isJsSpace
  let ns : Bool × Str :=
    match s1 with
    | 45 :: rest => (true, rest)
    | 43 :: rest => (false, rest)
    | _ => (false, s1)
  let s2 := if ciStartsWith (str "0x") ns.2 then ns.2.drop 2 else ns.2
  let ds := s2.takeWhile isHexDigitChar
  if ds.isEmpty then none
  else
    let v := ds.foldl (fun a c => 16 * a + hexCharVal c) 0
    some (if ns.1 then -(v : Int) else (v : Int))

/-- A parsed property tag. -/
structure PropTag where
  id : Nat
  type : Nat
deriving DecidableEq

/-- `_parsePropTag(entryName)`.  A parse with no hex digits is NaN in the
source; a NaN (or negative) id never equals any property id the decoder
consults and its raw-property slot is never read back, so both are modelled
as `none`. -/
def parsePropTag (entryName : Str) : Option PropTag :=
  let propTagStr : Option Str :=
    if 20 ≤ entryName.length then some (entryName.drop (entryName.length - 8))
    else
      let parts := splitOn (fun c => c = 95) entryName
      if 3 ≤ parts.length then parts.get? 2 else none
  match propTagStr with
  | none => none
  | some s =>
    match parseIntHex (s.take 4), parseIntHex (jsSubstring s 4 8) with
    | some i, some t => if 0 ≤ i ∧ 0 ≤ t then some ⟨i.toNat, t.toNat⟩ else none
    | _, _ => none

/-- `_shouldStoreProperty(propId, newPropType, existingProp)`. -/
def shouldStoreProperty (propId newPropType : Nat) (existing : Option RawProp) : Bool :=
  let isBodyProperty := propId = 0x1000 || propId = 0x1013
  if !isBodyProperty || existing.isNone then true
  else
    let existingIsText := match existing with
      | some p => p.type = 0x001E || p.type = 0x001F
      | none => false
    let newIsText := newPropType = 0x001E || newPropType = 0x001F
    if existingIsText && !newIsText then false
    else if !existingIsText && newIsText then true
    else false

/-- The printability score: fraction of characters in
`[\x20-\x7E\n\r\t -ÿ]` strictly above 0.7.  The float comparison
`count/len > 0.7` agrees with `7*len < 10*count` for every ratio a readable
string can produce. -/
def isPrintable (s : Str) : Bool :=
  if s.isEmpty then false
  else
    let printableCount := s.countP (fun c =>
      (0x20 ≤ c && c ≤ 0x7E) || c = 10 || c = 13 || c = 9 || (0xA0 ≤ c && c ≤ 0xFF))
    7 * s.length < 10 * printableCount

/-- `filetimeToDate(low, high)` as milliseconds since the Unix epoch
(BigInt arithmetic; BigInt division truncates toward zero). -/
def filetimeToMs (low high : Nat) : Int :=
  Int.tdiv (((high : Int) * 4294967296 + (low : Int)) - 116444736000000000) 10000

/-- `convertPropertyValue(data, type, propId)` (`null` ↦ `none`). -/
def convertPropertyValue (data : Bytes) (ty propId : Nat) : Option PropValue :=
  if data.isEmpty then none
  else
    let isBodyProp := propId = 0x1000 || propId = 0x1013
    if isBodyProp || ty = 0x001E || ty = 0x001F then
      let u16 := dataViewToString data .utf16le
      let u8 := dataViewToString data .utf8
      let u16B := isPrintable u16
      let u8B0 := isPrintable u8
      let u8B :=
        if u8B0 && u16B && u8.length < u16.length && u8.length < 5 then false else u8B0
      let useU16 := if ty = 0x001F then u16B && !u8B else u16B
      let text := if useU16 then u16 else u8
      if propId = 0x1000 then some (.text (normalizeText (stripHtmlStr text)))
      else some (.text text)
    else if ty = 0x0102 then some (.bytes data)
    else if ty = 0x0003 then some (.int (if 4 ≤ data.length then u32At data 0 else 0))
    else if ty = 0x000B then some (.bool (decide (data.getD 0 0 ≠ 0)))
    else if ty = 0x0040 then
      if 8 ≤ data.length then some (.time (filetimeToMs (u32At data 0) (u32At data 4)))
      else none
    else some (.bytes data)

/-! ## Recipients -/

/-- `this.properties`: per-id slots (a present slot may hold a null value)
plus the `'recipients'` slot. -/
structure PropsTable where
  slot : Nat → Option (Option PropValue)
  recips : Option (List Recipient)

/-- Store `this.properties[id] = {value}`. -/
def setSlot (t : PropsTable) (id : Nat) (v : Option PropValue) : PropsTable :=
  ⟨fun k => if k = id then some v else t.slot k, t.recips⟩

/-- Per-address occurrence counts (`toEmailCounts` / `ccEmailCounts`). -/
def buildCounts (emails : List Str) : Str → Nat :=
  emails.foldl (fun m e => fun k => if k = e then m k + 1 else m k) (fun _ => 0)

/-- The reconciliation loop over the recipient list: Cc match first (then
decrement), else To match (then decrement), else keep the read class. -/
def reconcileGo : List Recipient → (Str → Nat) → (Str → Nat) → List Recipient
  | [], _, _ => []
  | r :: rs, ccC, toC =>
    let k := lowerStr r.email
    if 0 < ccC k then
      { r with recipientType := .int 2 } ::
        reconcileGo rs (fun x => if x = k then ccC x - 1 else ccC x) toC
    else if 0 < toC k then
      { r with recipientType := .int 1 } ::
        reconcileGo rs ccC (fun x => if x = k then toC x - 1 else toC x)
    else r :: reconcileGo rs ccC toC

/-- The reconciliation tail of `extractRecipients` (lines 691-721): guarded
by the truthiness of either display field. -/
def reconcileRecipients (displayTo displayCc : Option PropValue)
    (rs : List Recipient) : List Recipient :=
  if truthy displayTo || truthy displayCc then
    reconcileGo rs (buildCounts (extractAddresses displayCc))
      (buildCounts (extractAddresses displayTo))
  else rs

/-- `findChildren`: iterative sibling-tree walk with a visited set; the
stack is modelled head-as-top (`push left; push right; pop` yields right
first).  Each iteration pops one id and pushes only on a first visit, so at
most `1 + 2*|entries|` iterations occur — the fuel is never exhausted. -/
def findChildrenGo (entries : List DirEntry) :
    Nat → List Int → List Int → List DirEntry
  | 0, _, _ => []
  | _ + 1, [], _ => []
  | fuel + 1, id :: stack, visited =>
    if id = -1 ∨ id ∈ visited then findChildrenGo entries fuel stack visited
    else
      let visited := id :: visited
      match (if 0 ≤ id ∧ id < (entries.length : Int) then entries.get? id.toNat else none) with
      | none => findChildrenGo entries fuel stack visited
      | some entry =>
        entry ::
          findChildrenGo entries fuel
            ((if entry.rightSiblingId ≠ -1 then [entry.rightSiblingId] else []) ++
             (if entry.leftSiblingId ≠ -1 then [entry.leftSiblingId] else []) ++ stack)
            visited

/-- Build one recipient from a `__recip_version1.0_` sub-storage: walk its
children, read each property stream and fold it into the record.  A truthy
non-string, non-byte-array address value would fault at `.indexOf` in the
source (`typeError`); a byte-array address is searched for `'@'` by
`TypedArray.indexOf`, which never finds a string and leaves the email. -/
def buildRecipient (buf : Bytes) (h : CFHeader) (fat miniFat : List Nat)
    (entries : List DirEntry) (storage : DirEntry) :
    Except DecodeErr (Option Recipient) := do
  let children :=
    if storage.childId = -1 then []
    else findChildrenGo entries (2 * entries.length + 2) [storage.childId] []
  let r ← children.foldlM
    (fun (r : Recipient) child => do
      match parsePropTag child.name with
      | none => pure r
      | some tag => do
        let propData ← readStreamFn buf h fat miniFat entries child
        let propValue := convertPropertyValue propData.data tag.type tag.id
        if tag.id = 0x0C15 then
          pure { r with recipientType :=
            (if truthy propValue then propValue.getD (.int 1) else .int 1) }
        else if tag.id = 0x3001 then
          pure { r with name :=
            (if truthy propValue then propValue.getD (.text []) else .text []) }
        else if tag.id = 0x3003 ∨ tag.id = 0x39FE then
          match propValue with
          | some (.text s) => pure (if s.contains 64 then { r with email := s } else r)
          | some (.bytes _) => pure r
          | some v => if truthy (some v) then throw .typeError else pure r
          | none => pure r
        else pure r)
    ⟨.int 1, .text [], []⟩
  pure (if !r.email.isEmpty || truthy (some r.name) then some r else none)

/-- `extractRecipients()`. -/
def extractRecipientsFn (buf : Bytes) (h : CFHeader) (fat miniFat : List Nat)
    (entries : List DirEntry) (t : PropsTable) : Except DecodeErr PropsTable := do
  let storages := entries.filter (fun e =>
    e.type = 1 && (str "__recip_version1.0_").isPrefixOf e.name)
  let recipients ← storages.foldlM
    (fun acc s => do
      match ← buildRecipient buf h fat miniFat entries s with
      | some r => pure (acc ++ [r])
      | none => pure acc)
    []
  let displayTo := (t.slot 0x0E04).join
  let displayCc := (t.slot 0x0E03).join
  pure ⟨t.slot, some (reconcileRecipients displayTo displayCc recipients)⟩

/-- `extractProperties()`: gather raw property streams from the directory,
decode them, backfill subject/body from the MIME scan, extract recipients. -/
def extractProperties (buf : Bytes) (h : CFHeader) (fat miniFat : List Nat)
    (entries : List DirEntry) : Except DecodeErr PropsTable := do
  let rawProps ← entries.foldlM
    (fun (m : List RawProp) entry => do
      if (str "__substg1.0_").isPrefixOf entry.name &&
         !(subIndex (str "__recip_version1.0_") entry.name).isSome then
        match parsePropTag entry.name with
        | none => pure m
        | some tag =>
          if shouldStoreProperty tag.id tag.type (lookupRaw m tag.id) then do
            let d ← readStreamFn buf h fat miniFat entries entry
            pure (insertRaw m ⟨tag.id, tag.type, d.data⟩)
          else pure m
      else pure m)
    []
  let getVal := fun (id : Nat) =>
    match lookupRaw rawProps id with
    | some p => convertPropertyValue p.data p.type p.id
    | none => none
  let bodyHtml := getVal 0x1013
  let t : PropsTable := ⟨fun _ => none, none⟩
  let t := if truthy bodyHtml then setSlot t 0x1013 bodyHtml else t
  -- `properties[HTML].value instanceof Uint8Array` re-decode (unreachable in
  -- practice: the text branch of convertPropertyValue never yields bytes)
  let pair : PropsTable × Option PropValue :=
    match t.slot 0x1013 with
    | some (some (.bytes b)) =>
      let decoded := dataViewToString b .utf8
      (setSlot t 0x1013 (some (.text decoded)), some (.text decoded))
    | _ => (t, bodyHtml)
  let t := pair.1
  let bodyHtml := pair.2
  let body := getVal 0x1000
  let pair2 : PropsTable × Option PropValue :=
    match body with
    | some (.bytes b) =>
      let s := dataViewToString b .utf8
      (setSlot t 0x1000 (some (.text s)), some (.text s))
    | _ => (t, body)
  let t := pair2.1
  let body := pair2.2
  let body :=
    if !truthy body && truthy bodyHtml then some (.text (stripHtmlVal bodyHtml)) else body
  let t := if truthy body then setSlot t 0x1000 body else t
  let t := rawProps.foldl
    (fun t p =>
      if p.id ≠ 0x1000 ∧ p.id ≠ 0x1013 then
        setSlot t p.id (convertPropertyValue p.data p.type p.id)
      else t)
    t
  let mimeData := scanBufferForMimeText (utf8DecodeNF buf)
  let t := if (t.slot 0x0037).isNone then setSlot t 0x0037 (mimeData.subject.map .text) else t
  let t := if (t.slot 0x1000).isNone then setSlot t 0x1000 (mimeData.body.map .text) else t
  extractRecipientsFn buf h fat miniFat entries t

/-- `getFieldValue` projected onto the returned record's four fields. -/
def getFieldValueRecord (t : PropsTable) : Record :=
  ⟨(t.slot 0x0037).join, (t.slot 0x1000).join, (t.slot 0x1013).join, t.recips.getD []⟩

/-- `parse()`: the compound-file path. -/
def parse (buf : Bytes) : Except DecodeErr Record := do
  let h ← readHeader buf
  let fat ← readFAT buf h
  let miniFat := readMiniFAT buf h fat
  let entries ← readDirectory buf h fat
  let t ← extractProperties buf h fat miniFat entries
  pure (getFieldValueRecord t)

/-- `MsgReader.read(arrayBuffer)`: the dispatcher. -/
def msgRead (buf : Bytes) : Except DecodeErr Record :=
  if buf.length < 8 then .ok (parseMime buf)
  else
    match getU32 buf 0 with
    | .ok sig => if sig = 0xE011CFD0 then parse buf else .ok (parseMime buf)
    | .error _ => .error .oob

deriving instance DecidableEq for Except

/-! ## Concrete buffers used by the claim theorems -/

/-- Little-endian 16-bit byte encoding. -/
def le16 (n : Nat) : Bytes := [n % 256, n / 256 % 256]

/-- Little-endian 32-bit byte encoding. -/
def le32 (n : Nat) : Bytes := [n % 256, n / 256 % 256, n / 65536 % 256, n / 16777216 % 256]

/-- UTF-16LE byte encoding of a BMP string. -/
def utf16Bytes (s : String) : Bytes := (str s).flatMap (fun c => [c % 256, c / 256])

/-- An 896-byte compound file: valid header (sector size 128, FAT in sector
0, directory chain in sectors 1-2) holding the root entry and one property
stream (`__substg1.0_0037001F`, 4096 bytes) whose start sector 30 lies far
outside the buffer. -/
def corruptStreamBuf : Bytes :=
  [0xD0, 0xCF, 0x11, 0xE0] ++ List.replicate 26 0 ++
  le16 7 ++ le16 6 ++ List.replicate 10 0 ++
  le32 1 ++ le32 1 ++ List.replicate 8 0 ++
  le32 0xFFFFFFFE ++ le32 0 ++ le32 0xFFFFFFFE ++ le32 0 ++
  le32 0 ++ List.replicate 432 0 ++
  le32 0xFFFFFFFE ++ le32 2 ++ le32 0xFFFFFFFE ++
  (List.range 29).flatMap (fun _ => le32 0xFFFFFFFF) ++
  utf16Bytes "Root Entry" ++ List.replicate 44 0 ++
  le16 22 ++ [5, 0] ++ le32 0xFFFFFFFF ++ le32 0xFFFFFFFF ++ le32 0xFFFFFFFF ++
  List.replicate 36 0 ++ le32 0xFFFFFFFE ++ le32 0 ++ List.replicate 4 0 ++
  utf16Bytes "__substg1.0_0037001F" ++ List.replicate 24 0 ++
  le16 42 ++ [2, 0] ++ le32 0xFFFFFFFF ++ le32 0xFFFFFFFF ++ le32 0xFFFFFFFF ++
  List.replicate 36 0 ++ le32 30 ++ le32 4096 ++ List.replicate 4 0

/-- The MIME example input of the specification. -/
def mimeExampleBuf : Bytes :=
  str "Subject: Hi\r\nTo: a@x.com\r\nContent-Transfer-Encoding: quoted-printable\r\n\r\nLine1=0D=0ALine2"

/-- A small MIME input whose body keeps a CR and a 4-newline run. -/
def rawBodyBuf : Bytes := str "Subject: X\r\n\r\nA \r\nB\n\n\n\nC"

/-- An 8-byte buffer that begins with the compound-file magic number. -/
def magic8Buf : Bytes := [0xD0, 0xCF, 0x11, 0xE0, 0, 0, 0, 0]

/-! ## Helper lemmas -/

theorem nul_not_mem_takeWhile (l : Str) : 0 ∉ l.takeWhile (fun c => c ≠ 0) := by
  intro h
  have := List.mem_takeWhile_imp h
  simp at this

theorem qpSoftPass_append (a l : Str) (ha : 61 ∉ a) :
    qpSoftPass (a ++ l) = a ++ qpSoftPass l := by
  induction a with
  | nil => rfl
  | cons c rest ih =>
    have hc : c ≠ 61 := fun h => ha (h ▸ List.mem_cons_self c rest)
    have hrest : 61 ∉ rest := fun h => ha (List.mem_cons_of_mem c h)
    cases rest with
    | nil =>
      cases l with
      | nil => simp [qpSoftPass]
      | cons x xs =>
        cases xs with
        | nil => simp [qpSoftPass, hc]
        | cons y ys => simp [qpSoftPass, hc]
    | cons d ds =>
      cases ds with
      | nil =>
        cases l with
        | nil => simp [qpSoftPass, hc]
        | cons x xs =>
          simp [qpSoftPass, hc]
          exact ih hrest
      | cons e es =>
        simp [qpSoftPass, hc]
        exact ih hrest

theorem qpHexPass_cons (c : Nat) (t : Str) (hc : c ≠ 61) :
    qpHexPass (c :: t) = c :: qpHexPass t := by
  match t with
  | [] => simp [qpHexPass]
  | [x] => simp [qpHexPass]
  | x :: y :: ys => simp [qpHexPass, hc]

theorem qpHexPass_append (a l : Str) (ha : 61 ∉ a) :
    qpHexPass (a ++ l) = a ++ qpHexPass l := by
  induction a with
  | nil => rfl
  | cons c rest ih =>
    have hc : c ≠ 61 := fun h => ha (h ▸ List.mem_cons_self c rest)
    have hrest : 61 ∉ rest := fun h => ha (List.mem_cons_of_mem c h)
    rw [List.cons_append, qpHexPass_cons c (rest ++ l) hc, ih hrest, List.cons_append]

theorem qpSoftPass_cons (c : Nat) (t : Str) (hc : c ≠ 61) :
    qpSoftPass (c :: t) = c :: qpSoftPass t := by
  match t with
  | [] => simp [qpSoftPass]
  | [x] => simp [qpSoftPass, hc]
  | x :: y :: ys => simp [qpSoftPass, hc]

theorem qpSoftPass_skip_eq (d : Nat) (t : Str) (h10 : d ≠ 10) (h13 : d ≠ 13) :
    qpSoftPass (61 :: d :: t) = 61 :: qpSoftPass (d :: t) := by
  match t with
  | [] => simp [qpSoftPass, h10]
  | x :: xs => simp [qpSoftPass, h10, h13]

/-! ## Claim theorems -/

/-- C9: every string produced by `dataViewToString` — in the UTF-8, UTF-16LE
and 8-bit (windows-1252) decode modes alike — is the decoded text truncated
at the first NUL, so no decoded property text contains an embedded NUL
character. -/
theorem c9_no_embedded_nul (b : Bytes) :
    0 ∉ dataViewToString b .utf8 ∧ 0 ∉ dataViewToString b .utf16le ∧
    0 ∉ dataViewToString b .ascii := by
  refine ⟨?_, ?_, ?_⟩
  · show 0 ∉ dataViewToString b .utf8
    unfold dataViewToString
    cases utf8DecodeFatal b with
    | some d => exact nul_not_mem_takeWhile d
    | none => exact nul_not_mem_takeWhile _
  · exact nul_not_mem_takeWhile _
  · exact nul_not_mem_takeWhile _

/-- C10: quoted-printable decoding replaces only uppercase hex escapes — an
`=` followed by two hex digits of which at least one is lowercase is left
verbatim by both replacement passes — while soft line breaks (`=` before a
line ending) are removed; concretely, `=0d=0a` survives and `=0D=0A`
becomes CRLF. -/
theorem c10_qp_case_sensitivity :
    (∀ (a b : Str) (d1 d2 : Nat), 61 ∉ a →
      isHexDigitChar d1 = true → isHexDigitChar d2 = true →
      ((97 ≤ d1 ∧ d1 ≤ 102) ∨ (97 ≤ d2 ∧ d2 ≤ 102)) →
      qpHexPass (qpSoftPass (a ++ 61 :: d1 :: d2 :: b)) =
        a ++ 61 :: d1 :: d2 :: qpHexPass (qpSoftPass b)) ∧
    (∀ (a b : Str), 61 ∉ a →
      qpSoftPass (a ++ 61 :: 10 :: b) = a ++ qpSoftPass b ∧
      qpSoftPass (a ++ 61 :: 13 :: 10 :: b) = a ++ qpSoftPass b) ∧
    decodeQuotedPrintable (str "Line1=0d=0aLine2") (str "utf-8") =
      str "Line1=0d=0aLine2" ∧
    decodeQuotedPrintable (str "Line1=0D=0ALine2") (str "utf-8") =
      str "Line1\r\nLine2" := by
  refine ⟨?_, ?_, by decide, by decide⟩
  · intro a b d1 d2 ha h1 h2 hlow
    have hd1 : (48 ≤ d1 ∧ d1 ≤ 57) ∨ (65 ≤ d1 ∧ d1 ≤ 70) ∨ (97 ≤ d1 ∧ d1 ≤ 102) := by
      simp [isHexDigitChar] at h1; omega
    have hd2 : (48 ≤ d2 ∧ d2 ≤ 57) ∨ (65 ≤ d2 ∧ d2 ≤ 70) ∨ (97 ≤ d2 ∧ d2 ≤ 102) := by
      simp [isHexDigitChar] at h2; omega
    have h61a : d1 ≠ 61 := by omega
    have h61b : d2 ≠ 61 := by omega
    have h10a : d1 ≠ 10 := by omega
    have h13a : d1 ≠ 13 := by omega
    have hup : (isUpHex d1 && isUpHex d2) = false := by
      rcases hlow with h | h
      · have : isUpHex d1 = false := by simp [isUpHex]; omega
        simp [this]
      · have : isUpHex d2 = false := by simp [isUpHex]; omega
        simp [this]
    rw [qpSoftPass_append a _ ha, qpSoftPass_skip_eq d1 _ h10a h13a,
        qpSoftPass_cons d1 _ h61a, qpSoftPass_cons d2 _ h61b,
        qpHexPass_append a _ ha]
    have hstep : qpHexPass (61 :: d1 :: d2 :: qpSoftPass b) =
        61 :: qpHexPass (d1 :: d2 :: qpSoftPass b) := by
      simp [qpHexPass, hup]
    rw [hstep, qpHexPass_cons d1 _ h61a, qpHexPass_cons d2 _ h61b]
  · intro a b ha
    constructor
    · rw [qpSoftPass_append a _ ha]
      congr 1
    · rw [qpSoftPass_append a _ ha]
      congr 1

/-- C10 witness: the general parts instantiated at `x=0dy` and soft breaks
inside `x=\ny` / `x=\r\ny`. -/
theorem c10_witness :
    qpHexPass (qpSoftPass (str "x" ++ 61 :: 48 :: 100 :: str "y")) =
      str "x" ++ 61 :: 48 :: 100 :: qpHexPass (qpSoftPass (str "y")) ∧
    qpSoftPass (str "x" ++ 61 :: 10 :: str "y") = str "x" ++ qpSoftPass (str "y") ∧
    qpSoftPass (str "x" ++ 61 :: 13 :: 10 :: str "y") = str "x" ++ qpSoftPass (str "y") :=
  ⟨c10_qp_case_sensitivity.1 (str "x") (str "y") 48 100 (by decide) (by decide)
      (by decide) (by decide),
   (c10_qp_case_sensitivity.2.1 (str "x") (str "y") (by decide)).1,
   (c10_qp_case_sensitivity.2.1 (str "x") (str "y") (by decide)).2⟩

/-- C7 counterexample: the byte sequence `[0, 1]` contains a nonzero byte,
yet the boolean conversion yields `false` — the value is not equivalent to
"some nonzero byte is present". -/
theorem c7_counterexample :
    ¬ ((convertPropertyValue [0, 1] 0x000B 0x0C15 = some (.bool true)) ↔
        ∃ x ∈ ([0, 1] : Bytes), x ≠ 0) := by decide

/-- C7 amended: for a nonempty byte sequence decoded with the boolean type
tag (under a non-body property id), the value is true iff the FIRST byte is
nonzero. -/
theorem c7_bool_first_byte (b : Nat) (bs : Bytes) (propId : Nat)
    (h1 : propId ≠ 0x1000) (h2 : propId ≠ 0x1013) :
    convertPropertyValue (b :: bs) 0x000B propId = some (.bool (decide (b ≠ 0))) := by
  simp [convertPropertyValue, h1, h2]

/-- C7 witness: a leading nonzero byte decodes to `true`. -/
theorem c7_witness : convertPropertyValue [1, 0] 0x000B 0x0C15 = some (.bool true) := by
  have h := c7_bool_first_byte 1 [0] 0x0C15 (by decide) (by decide)
  simpa using h

theorem dataViewToString_nil (e : Enc) : dataViewToString [] e = [] := by
  cases e <;> rfl

/-- C5: for any text-typed (or HTML-body) property other than the plain
body, if the UTF-16LE decode scores printable and the 8-bit decode does
not, the resolved value is the UTF-16LE decode for every type tag; and
when both score printable under the 8-bit string tag (0x001F), the 8-bit
decode wins unless it is shorter than 5 characters while the UTF-16 decode
is longer, in which case it is distrusted and the UTF-16 decode is used. -/
theorem c5_printability (data : Bytes) (ty propId : Nat)
    (hbody : propId ≠ 0x1000)
    (hty : ty = 0x001E ∨ ty = 0x001F ∨ propId = 0x1013) :
    (isPrintable (dataViewToString data .utf16le) = true →
      isPrintable (dataViewToString data .utf8) = false →
      convertPropertyValue data ty propId =
        some (.text (dataViewToString data .utf16le))) ∧
    (ty = 0x001F →
      isPrintable (dataViewToString data .utf16le) = true →
      isPrintable (dataViewToString data .utf8) = true →
      convertPropertyValue data ty propId = some (.text (
        if (dataViewToString data .utf8).length <
             (dataViewToString data .utf16le).length ∧
           (dataViewToString data .utf8).length < 5
        then dataViewToString data .utf16le
        else dataViewToString data .utf8))) := by
  constructor
  · intro h16 h8
    have hne : data.isEmpty = false := by
      cases data with
      | nil => rw [dataViewToString_nil] at h16; simp [isPrintable] at h16
      | cons x xs => rfl
    rcases hty with rfl | rfl | rfl
    · simp [convertPropertyValue, hne, hbody, h16, h8]
    · simp [convertPropertyValue, hne, hbody, h16, h8]
    · simp [convertPropertyValue, hne, hbody, h16, h8]
  · intro hty1F h16 h8
    subst hty1F
    have hne : data.isEmpty = false := by
      cases data with
      | nil => rw [dataViewToString_nil] at h16; simp [isPrintable] at h16
      | cons x xs => rfl
    by_cases hlen : (dataViewToString data .utf8).length <
        (dataViewToString data .utf16le).length ∧
        (dataViewToString data .utf8).length < 5
    · simp [convertPropertyValue, hne, hbody, h16, h8, hlen.1, hlen.2]
    · simp [convertPropertyValue, hne, hbody, h16, h8, if_neg hlen]

/-- C5 witness: bytes whose UTF-16LE decode is printable while the 8-bit
decode is not (it truncates to empty at a leading NUL) resolve to the
UTF-16LE decode even under the 8-bit tag; and when both decodes are
printable but the 8-bit one is a single character against a 2-character
UTF-16 decode, the short 8-bit decode is distrusted. -/
theorem c5_witness :
    convertPropertyValue [0, 1, 65, 0, 65, 0, 65, 0, 65, 0, 65, 0] 0x001F 0x0037 =
      some (.text [256, 65, 65, 65, 65, 65]) ∧
    convertPropertyValue [65, 0, 66, 0] 0x001F 0x0037 = some (.text (str "AB")) := by
  constructor
  · have h := (c5_printability [0, 1, 65, 0, 65, 0, 65, 0, 65, 0, 65, 0] 0x001F 0x0037
      (by decide) (Or.inr (Or.inl rfl))).1 (by decide) (by decide)
    rw [show dataViewToString [0, 1, 65, 0, 65, 0, 65, 0, 65, 0, 65, 0] .utf16le =
      [256, 65, 65, 65, 65, 65] from by decide] at h
    exact h
  · have h := (c5_printability [65, 0, 66, 0] 0x001F 0x0037
      (by decide) (Or.inr (Or.inl rfl))).2 rfl (by decide) (by decide)
    rw [if_pos (by decide)] at h
    rw [show dataViewToString [65, 0, 66, 0] .utf16le = str "AB" from by decide] at h
    exact h

/-- C4: the reconciliation loop treats each sub-storage recipient in order:
a positive Cc count for its lowercased address reclassifies it Cc and
decrements that count; else a positive To count reclassifies it To and
decrements; otherwise the class read from the sub-storage is kept.  And
concretely: one recipient with address `a@x.com` and unset class (the
default To=1) together with a display-Cc field `a@x.com` ends up
classified Cc (2). -/
theorem c4_reconciliation :
    (∀ (r : Recipient) (rs : List Recipient) (ccC toC : Str → Nat),
      (0 < ccC (lowerStr r.email) →
        reconcileGo (r :: rs) ccC toC =
          { r with recipientType := .int 2 } ::
            reconcileGo rs
              (fun x => if x = lowerStr r.email then ccC x - 1 else ccC x) toC) ∧
      (ccC (lowerStr r.email) = 0 → 0 < toC (lowerStr r.email) →
        reconcileGo (r :: rs) ccC toC =
          { r with recipientType := .int 1 } ::
            reconcileGo rs ccC
              (fun x => if x = lowerStr r.email then toC x - 1 else toC x)) ∧
      (ccC (lowerStr r.email) = 0 → toC (lowerStr r.email) = 0 →
        reconcileGo (r :: rs) ccC toC = r :: reconcileGo rs ccC toC)) ∧
    reconcileRecipients none (some (.text (str "a@x.com")))
      [⟨.int 1, .text [], str "a@x.com"⟩] = [⟨.int 2, .text [], str "a@x.com"⟩] := by
  refine ⟨fun r rs ccC toC => ⟨?_, ?_, ?_⟩, by decide⟩
  · intro hcc
    simp [reconcileGo, hcc]
  · intro hcc hto
    simp [reconcileGo, hcc, hto]
  · intro hcc hto
    simp [reconcileGo, hcc, hto]

/-- C4 witness: the three step cases at concrete counts, and the display-Cc
scenario holds by the theorem's final conjunct. -/
theorem c4_witness :
    reconcileGo [⟨.int 3, .text [], str "B@Y.com"⟩]
        (buildCounts [str "b@y.com"]) (buildCounts []) =
      [⟨.int 2, .text [], str "B@Y.com"⟩] ∧
    reconcileGo [⟨.int 3, .text [], str "b@y.com"⟩]
        (buildCounts []) (buildCounts [str "b@y.com"]) =
      [⟨.int 1, .text [], str "b@y.com"⟩] ∧
    reconcileGo [⟨.int 3, .text [], str "b@y.com"⟩]
        (buildCounts []) (buildCounts []) =
      [⟨.int 3, .text [], str "b@y.com"⟩] := by
  refine ⟨?_, ?_, ?_⟩
  · have h := ((c4_reconciliation.1 ⟨.int 3, .text [], str "B@Y.com"⟩ []
      (buildCounts [str "b@y.com"]) (buildCounts [])).1 (by decide))
    simpa using h
  · have h := ((c4_reconciliation.1 ⟨.int 3, .text [], str "b@y.com"⟩ []
      (buildCounts []) (buildCounts [str "b@y.com"])).2.1 (by decide) (by decide))
    simpa using h
  · have h := ((c4_reconciliation.1 ⟨.int 3, .text [], str "b@y.com"⟩ []
      (buildCounts []) (buildCounts [])).2.2 (by decide) (by decide))
    simpa using h

theorem chainGo_spec (isMini : Bool) (src : Bytes) (fat : List Nat) (ss total : Nat)
    (hss : 0 < ss) :
    ∀ fuel, ∀ sector off steps acc,
      off ≤ total → total - off < fuel → acc.length = off →
      (chainGo isMini src fat ss total fuel sector off steps acc ≠ .error .diverged) ∧
      (isMini = true →
        ∃ o, chainGo isMini src fat ss total fuel sector off steps acc = .ok o) ∧
      (∀ o, chainGo isMini src fat ss total fuel sector off steps acc = .ok o →
        o.copied ≤ total ∧ o.steps ≤ steps + (total - off) ∧ o.data.length = total) := by
  intro fuel
  induction fuel with
  | zero => intro sector off steps acc h1 h2 _; omega
  | succ n ih =>
    intro sector off steps acc h1 h2 h3
    by_cases hstop : isSentinel sector = true ∨ total ≤ off
    · simp only [chainGo, if_pos hstop]
      refine ⟨fun h => Except.noConfusion h, fun _ => ⟨_, rfl⟩, fun o ho => ?_⟩
      have hx := Except.ok.inj ho
      subst hx
      refine ⟨h1, ?_, ?_⟩
      · show steps ≤ steps + (total - off)
        omega
      · simp [h3]
        omega
    · have hofflt : off < total := by
        rcases Nat.lt_or_ge off total with h | h
        · exact h
        · exact absurd (Or.inr h) hstop
      have hcopy : 0 < min ss (total - off) := by omega
      simp only [chainGo, if_neg hstop]
      by_cases hread : isMini = true ∨ min ss (total - off) = 0 ∨
          (if isMini = true then sector * ss else 512 + sector * ss) +
            min ss (total - off) ≤ src.length
      · simp only [if_pos hread]
        by_cases hbrk : fat.length ≤ sector
        · simp only [if_pos hbrk]
          refine ⟨fun h => Except.noConfusion h, fun _ => ⟨_, rfl⟩, fun o ho => ?_⟩
          have hx := Except.ok.inj ho
          subst hx
          refine ⟨?_, ?_, ?_⟩
          · show off + min ss (total - off) ≤ total
            omega
          · show steps ≤ steps + (total - off)
            omega
          · simp [h3]
            omega
        · simp only [if_neg hbrk]
          have := ih (fat.getD sector 0) (off + min ss (total - off)) (steps + 1)
            (acc ++ (List.range (min ss (total - off))).map
              (fun i => src.getD ((if isMini = true then sector * ss
                else 512 + sector * ss) + i) 0))
            (by omega) (by omega) (by simp [h3])
          refine ⟨this.1, this.2.1, fun o ho => ?_⟩
          have hb := this.2.2 o ho
          exact ⟨hb.1, by omega, hb.2.2⟩
      · simp only [if_neg hread]
        exact ⟨fun h => absurd (Except.error.inj h) (by decide),
          fun hm => absurd (Or.inl hm) hread,
          fun o ho => Except.noConfusion ho⟩

/-- C2 counterexample: with the cyclic one-entry table `fat = [0]`, sector
size 1 and a 3-byte stream, the chain walk terminates but follows the
`sector = fat[sector]` link 3 times — more sector-chain steps than the
allocation table has entries. -/
theorem c2_counterexample :
    readSectorChain true [] [0] 1 3 0 = .ok ⟨[0, 0, 0], 3, 3⟩ ∧
    ([0] : List Nat).length < 3 := by decide

/-- C2 amended: for a positive sector size (always `2^shift` in the
program), every chain walk terminates without exhausting its bound, copies
at most `totalSize` bytes into a `totalSize`-byte array, and follows at
most `totalSize` chain steps — the iteration bound is the stream size, not
the allocation-table length; and at the `readStream` level the bytes
copied never exceed `entry.size`. -/
theorem c2_chain_bounds :
    (∀ (isMini : Bool) (src : Bytes) (fat : List Nat) (ss total start : Nat), 0 < ss →
      readSectorChain isMini src fat ss total start ≠ .error .diverged ∧
      ∀ o, readSectorChain isMini src fat ss total start = .ok o →
        o.copied ≤ total ∧ o.steps ≤ total ∧ o.data.length = total) ∧
    (∀ (buf : Bytes) (hh : CFHeader) (fat miniFat : List Nat)
        (entries : List DirEntry) (entry : DirEntry),
      0 < hh.sectorSize → 0 < hh.miniSectorSize →
      readStreamFn buf hh fat miniFat entries entry ≠ .error .diverged ∧
      ∀ o, readStreamFn buf hh fat miniFat entries entry = .ok o →
        o.copied ≤ entry.size) := by
  have main : ∀ (isMini : Bool) (src : Bytes) (fat : List Nat) (ss total start : Nat),
      0 < ss →
      readSectorChain isMini src fat ss total start ≠ .error .diverged ∧
      ∀ o, readSectorChain isMini src fat ss total start = .ok o →
        o.copied ≤ total ∧ o.steps ≤ total ∧ o.data.length = total := by
    intro isMini src fat ss total start hss
    have h := chainGo_spec isMini src fat ss total hss (total + 1) start 0 0 []
      (by omega) (by omega) rfl
    refine ⟨h.1, fun o ho => ?_⟩
    have hb := h.2.2 o ho
    exact ⟨hb.1, by omega, hb.2.2⟩
  refine ⟨main, ?_⟩
  intro buf hh fat miniFat entries entry h1 h2
  unfold readStreamFn
  by_cases hsz : entry.size = 0
  · simp only [if_pos hsz]
    exact ⟨fun h => Except.noConfusion h,
      fun o ho => by cases Except.ok.inj ho; simp⟩
  · simp only [if_neg hsz]
    by_cases hmini : entry.size < 4096 ∧ entry.type ≠ 5
    · simp only [if_pos hmini]
      cases hfind : entries.find? (fun e => e.type = 5) with
      | none =>
        exact ⟨fun h => Except.noConfusion h,
          fun o ho => by cases Except.ok.inj ho; simp⟩
      | some root =>
        by_cases hroot : root.size = 0
        · simp only [if_pos hroot]
          show (pure (⟨[], 0, 0⟩ : ChainOut) >>= fun (miniStream : ChainOut) =>
            readSectorChain true miniStream.data miniFat hh.miniSectorSize
              entry.size entry.startSector) ≠ _ ∧ _
          rw [pure_bind]
          have h := main true [] miniFat hh.miniSectorSize entry.size entry.startSector h2
          exact ⟨h.1, fun o ho => (h.2 o ho).1⟩
        · simp only [if_neg hroot]
          cases hbig : readSectorChain false buf fat hh.sectorSize root.size
              root.startSector with
          | error e =>
            have hbigSpec := (main false buf fat hh.sectorSize root.size
              root.startSector h1).1
            rw [hbig] at hbigSpec
            have hne : e ≠ DecodeErr.diverged := fun hq => hbigSpec (by rw [hq])
            show (Except.error e >>= fun (miniStream : ChainOut) =>
              readSectorChain true miniStream.data miniFat hh.miniSectorSize
                entry.size entry.startSector) ≠ _ ∧ _
            refine ⟨?_, fun o ho => ?_⟩
            · intro hc
              exact hne (Except.error.inj hc)
            · exact Except.noConfusion ho
          | ok m =>
            show (Except.ok m >>= fun (miniStream : ChainOut) =>
              readSectorChain true miniStream.data miniFat hh.miniSectorSize
                entry.size entry.startSector) ≠ _ ∧ _
            have h := main true m.data miniFat hh.miniSectorSize entry.size
              entry.startSector h2
            exact ⟨h.1, fun o ho => (h.2 o ho).1⟩
    · simp only [if_neg hmini]
      have h := main false buf fat hh.sectorSize entry.size entry.startSector h1
      exact ⟨h.1, fun o ho => (h.2 o ho).1⟩

/-- C2 witness: a concrete chain walk neither diverges nor errors. -/
theorem c2_witness :
    readSectorChain true [] [] 1 5 7 ≠ .error .diverged :=
  (c2_chain_bounds.1 true [] [] 1 5 7 (by decide)).1

set_option maxRecDepth 1000000 in
/-- C3 counterexample: `corruptStreamBuf` passes the compound-file header
check, yet the out-of-bounds sector read while extracting its single
property stream aborts the whole decode with an error — the property is
not skipped and no record is produced. -/
theorem c3_counterexample :
    (readHeader corruptStreamBuf).isOk = true ∧
    msgRead corruptStreamBuf = .error .oob := by decide

/-- C3 amended: only the mini-stream path tolerates out-of-bounds sector
offsets (reads yield 0 and the walk completes); in the regular sector path
a chain whose first sector offset lies past the buffer end raises an error
that propagates out of the decode. -/
theorem c3_oob_behavior :
    (∀ (src : Bytes) (fat : List Nat) (ss total start : Nat), 0 < ss →
      ∃ o, readSectorChain true src fat ss total start = .ok o) ∧
    (∀ (src : Bytes) (fat : List Nat) (ss total start : Nat), 0 < ss → 0 < total →
      isSentinel start = false →
      src.length < 512 + start * ss + min ss total →
      readSectorChain false src fat ss total start = .error .oob) := by
  constructor
  · intro src fat ss total start hss
    exact (chainGo_spec true src fat ss total hss (total + 1) start 0 0 []
      (by omega) (by omega) rfl).2.1 rfl
  · intro src fat ss total start hss htot hsent hlen
    show chainGo false src fat ss total (total + 1) start 0 0 [] = .error .oob
    have hc1 : ¬ (isSentinel start = true ∨ total ≤ 0) := by
      rw [hsent]
      simp
      omega
    have hc2 : ¬ ((false : Bool) = true ∨ min ss (total - 0) = 0 ∨
        (if (false : Bool) = true then start * ss else 512 + start * ss) +
          min ss (total - 0) ≤ src.length) := by
      simp
      omega
    simp only [chainGo, if_neg hc1, if_neg hc2]
    rfl

/-- C3 witness: a regular-path chain whose sector offset is past the end of
an empty buffer errors out. -/
theorem c3_witness : readSectorChain false [] [] 1 2 5 = .error .oob :=
  c3_oob_behavior.2 [] [] 1 2 5 (by decide) (by decide) (by decide) (by decide)

/-- C1 counterexample: an 8-byte buffer (shorter than 512) that begins with
the compound-file magic number is dispatched to the compound path, whose
header check throws — the decode does not run the MIME fallback and does
not return a record. -/
theorem c1_counterexample :
    magic8Buf.length < 512 ∧ msgRead magic8Buf = .error .tooSmall := by decide

/-- C1 amended: the dispatcher's size threshold is 8 bytes, not 512.  A
buffer shorter than 512 bytes runs the MIME fallback (and the decode
returns normally) when it is shorter than 8 bytes or its first 4 bytes
differ from the magic number; but a buffer of length 8..511 that begins
with the magic number is dispatched to the compound path and the decode
throws the too-small error. -/
theorem c1_dispatch (buf : Bytes) (hlen : buf.length < 512) :
    (buf.length < 8 ∨ u32At buf 0 ≠ 0xE011CFD0 → msgRead buf = .ok (parseMime buf)) ∧
    (8 ≤ buf.length → u32At buf 0 = 0xE011CFD0 → msgRead buf = .error .tooSmall) := by
  constructor
  · intro h
    rcases h with h | h
    · simp [msgRead, h]
    · unfold msgRead
      by_cases h8 : buf.length < 8
      · rw [if_pos h8]
      · rw [if_neg h8]
        have hg : getU32 buf 0 = .ok (u32At buf 0) := by
          unfold getU32
          rw [if_pos (by omega)]
        rw [hg]
        simp [h]
  · intro h8 hmag
    unfold msgRead
    rw [if_neg (by omega)]
    have hg : getU32 buf 0 = .ok (u32At buf 0) := by
      unfold getU32
      rw [if_pos (by omega)]
    rw [hg]
    simp only [hmag, if_pos rfl]
    unfold parse
    have hh : readHeader buf = .error .tooSmall := by
      unfold readHeader
      rw [if_pos hlen]
      rfl
    rw [hh]
    rfl

/-- C1 witness: a tiny non-magic buffer takes the MIME path; an 8-byte
magic-prefixed buffer throws. -/
theorem c1_witness :
    msgRead [0, 1, 2] = .ok (parseMime [0, 1, 2]) ∧
    msgRead [208, 207, 17, 224, 1, 2, 3, 4] = .error .tooSmall :=
  ⟨(c1_dispatch [0, 1, 2] (by decide)).1 (Or.inl (by decide)),
   (c1_dispatch [208, 207, 17, 224, 1, 2, 3, 4] (by decide)).2 (by decide) (by decide)⟩

set_option maxRecDepth 400000 in
/-- C6 counterexample: on the specification's MIME example the decoded
record is NOT the one with the normalized body — quoted-printable decoding
yields `Line1\r\nLine2` and normalization (which would give
`Line1\nLine2`) is not applied on the MIME path. -/
theorem c6_counterexample :
    msgRead mimeExampleBuf ≠ .ok ⟨some (.text (str "Hi")),
      some (.text (normalizeText
        (decodeQuotedPrintable (str "Line1=0D=0ALine2") (str "utf-8")))),
      none, [⟨.int 1, .text [], str "a@x.com"⟩]⟩ ∧
    normalizeText (decodeQuotedPrintable (str "Line1=0D=0ALine2") (str "utf-8")) =
      str "Line1\nLine2" := by decide

set_option maxRecDepth 400000 in
/-- C6 amended: the MIME example decodes to subject `Hi`, exactly one
recipient `a@x.com` of type To (1), and the body `Line1\r\nLine2` — the
quoted-printable-decoded text whose two lines are `Line1` and `Line2`,
with the CRLF separator kept because the MIME path does not normalize. -/
theorem c6_mime_example :
    msgRead mimeExampleBuf = .ok ⟨some (.text (str "Hi")),
      some (.text (str "Line1\r\nLine2")), none,
      [⟨.int 1, .text [], str "a@x.com"⟩]⟩ := by decide

set_option maxRecDepth 400000 in
/-- C8 counterexample: a MIME-path decode whose body keeps a CR, a trailing
space inside a line, and a 4-newline run — applying `normalizeText` to it
changes it, so the record's body is not in normalized form. -/
theorem c8_counterexample :
    msgRead rawBodyBuf = .ok ⟨some (.text (str "X")),
      some (.text (str "A \r\nB\n\n\n\nC")), none, []⟩ ∧
    normalizeText (str "A \r\nB\n\n\n\nC") ≠ str "A \r\nB\n\n\n\nC" := by decide

theorem crToLf_no_cr (l : Str) : 13 ∉ crToLf l := by
  intro h
  rcases List.mem_map.mp h with ⟨a, _, ha⟩
  by_cases h13 : a = 13 <;> simp [h13] at ha

theorem emitRun_cases (n : Nat) :
    emitRun n = [] ∨ emitRun n = [10] ∨ emitRun n = [10, 10] := by
  match n with
  | 0 => left; rfl
  | 1 => right; left; rfl
  | 2 => right; right; rfl
  | n + 3 => right; right; simp [emitRun]

theorem collapse3Go_no_cr (l : Str) : ∀ n, 13 ∉ l → 13 ∉ collapse3Go n l := by
  induction l with
  | nil =>
    intro n _
    rcases emitRun_cases n with h | h | h <;> simp [collapse3Go, h]
  | cons c rest ih =>
    intro n hl
    have hrest : 13 ∉ rest := fun h => hl (List.mem_cons_of_mem _ h)
    have hc : c ≠ 13 := fun h => hl (h ▸ List.mem_cons_self c rest)
    by_cases h10 : c = 10
    · subst h10
      rw [show collapse3Go n (10 :: rest) = collapse3Go (n + 1) rest from by
        simp [collapse3Go]]
      exact ih (n + 1) hrest
    · rw [show collapse3Go n (c :: rest) = emitRun n ++ c :: collapse3Go 0 rest from by
        simp [collapse3Go, h10]]
      intro hmem
      rcases List.mem_append.mp hmem with h | h
      · rcases emitRun_cases n with he | he | he <;> simp [he] at h
      · rcases List.mem_cons.mp h with h | h
        · exact hc h.symm
        · exact ih 0 hrest h

theorem has3_eq_of_ne {c : Nat} (rest : Str) (hc : c ≠ 10) :
    has3 (c :: rest) = has3 rest := by
  simp [has3, hc]

theorem has3_ten_eq (rest : Str) (h : ∀ a b t, rest = a :: b :: t → a ≠ 10 ∨ b ≠ 10) :
    has3 (10 :: rest) = has3 rest := by
  match rest with
  | [] => rfl
  | [a] => simp [has3]
  | a :: b :: t =>
    rcases h a b t rfl with ha | hb
    · simp [has3, ha]
    · simp [has3, hb]

theorem has3_triple (t : Str) : has3 (10 :: 10 :: 10 :: t) = true := by
  simp [has3]

theorem has3_cons_true {l : Str} (x : Nat) (h : has3 l = true) : has3 (x :: l) = true := by
  by_cases hx : x = 10
  · subst hx
    match l with
    | [] => simp [has3] at h
    | [a] => simp [has3] at h
    | a :: b :: t =>
      by_cases hab : a = 10 ∧ b = 10
      · simp [has3, hab.1, hab.2]
      · rw [has3_ten_eq (a :: b :: t) (by
          intro a' b' t' he
          cases he
          by_cases ha : a = 10
          · right; intro hb; exact hab ⟨ha, hb⟩
          · left; exact ha)]
        exact h
  · rw [has3_eq_of_ne l hx]
    exact h

theorem has3_tail {x : Nat} {l : Str} (h : has3 (x :: l) = false) : has3 l = false := by
  by_contra hc
  rw [has3_cons_true x (Bool.not_eq_false _ |>.mp hc)] at h
  exact Bool.noConfusion h

theorem has3_cons_false {c : Nat} {X : Str} (hc : c ≠ 10) (hX : has3 X = false) :
    has3 (c :: X) = false := by
  rw [has3_eq_of_ne X hc]
  exact hX

theorem has3_ten_cons {c : Nat} {X : Str} (hc : c ≠ 10) (hX : has3 X = false) :
    has3 (10 :: c :: X) = false := by
  rw [has3_ten_eq (c :: X) (fun a b t he => by cases he; exact Or.inl hc)]
  exact has3_cons_false hc hX

theorem has3_ten_ten_cons {c : Nat} {X : Str} (hc : c ≠ 10) (hX : has3 X = false) :
    has3 (10 :: 10 :: c :: X) = false := by
  rw [has3_ten_eq (10 :: c :: X) (fun a b t he => by cases he; exact Or.inr hc)]
  exact has3_ten_cons hc hX

theorem has3_emit_prepend {n c : Nat} {X : Str} (hc : c ≠ 10) (hX : has3 X = false) :
    has3 (emitRun n ++ c :: X) = false := by
  rcases emitRun_cases n with h | h | h <;> rw [h]
  · exact has3_cons_false hc hX
  · exact has3_ten_cons hc hX
  · exact has3_ten_ten_cons hc hX

theorem has3_collapse3Go (l : Str) : ∀ n, has3 (collapse3Go n l) = false := by
  induction l with
  | nil =>
    intro n
    rcases emitRun_cases n with h | h | h <;> simp [collapse3Go, h, has3]
  | cons c rest ih =>
    intro n
    by_cases h10 : c = 10
    · subst h10
      rw [show collapse3Go n (10 :: rest) = collapse3Go (n + 1) rest from by
        simp [collapse3Go]]
      exact ih (n + 1)
    · rw [show collapse3Go n (c :: rest) = emitRun n ++ c :: collapse3Go 0 rest from by
        simp [collapse3Go, h10]]
      exact has3_emit_prepend h10 (ih 0)

theorem has3_of_pref_true : ∀ (t r : Str), t <+: r → has3 t = true → has3 r = true := by
  intro t
  induction t with
  | nil => intro r _ h; simp [has3] at h
  | cons x t' ih =>
    intro r hpre h
    obtain ⟨y, r', rfl⟩ : ∃ y r', r = y :: r' := by
      rcases hpre with ⟨s, hs⟩
      cases r with
      | nil => cases hs
      | cons y r' => exact ⟨y, r', rfl⟩
    obtain ⟨rfl, hpre'⟩ := List.cons_prefix_cons.mp hpre
    by_cases hx : x = 10
    · subst hx
      rcases t' with _ | ⟨a, t''⟩
      · simp [has3] at h
      rcases t'' with _ | ⟨b, tt⟩
      · simp [has3] at h
      obtain ⟨z, r2, rfl⟩ : ∃ z r2, r' = z :: r2 := by
        rcases hpre' with ⟨s, hs⟩
        cases r' with
        | nil => cases hs
        | cons z r2 => exact ⟨z, r2, rfl⟩
      obtain ⟨rfl, hp2⟩ := List.cons_prefix_cons.mp hpre'
      obtain ⟨w, r3, rfl⟩ : ∃ w r3, r2 = w :: r3 := by
        rcases hp2 with ⟨s, hs⟩
        cases r2 with
        | nil => cases hs
        | cons w r3 => exact ⟨w, r3, rfl⟩
      obtain ⟨rfl, hp3⟩ := List.cons_prefix_cons.mp hp2
      by_cases hab : a = 10 ∧ b = 10
      · rw [hab.1, hab.2]
        exact has3_triple r3
      · have hcond : ∀ a' b' s, a :: b :: tt = a' :: b' :: s → a' ≠ 10 ∨ b' ≠ 10 := by
          intro a' b' s he
          cases he
          by_cases ha : a = 10
          · exact Or.inr fun hb => hab ⟨ha, hb⟩
          · exact Or.inl ha
        have hcond2 : ∀ a' b' s, a :: b :: r3 = a' :: b' :: s → a' ≠ 10 ∨ b' ≠ 10 := by
          intro a' b' s he
          cases he
          by_cases ha : a = 10
          · exact Or.inr fun hb => hab ⟨ha, hb⟩
          · exact Or.inl ha
        rw [has3_ten_eq _ hcond] at h
        rw [has3_ten_eq _ hcond2]
        exact ih _ (List.cons_prefix_cons.mpr
          ⟨rfl, List.cons_prefix_cons.mpr ⟨rfl, hp3⟩⟩) h
    · rw [has3_eq_of_ne t' hx] at h
      rw [has3_eq_of_ne r' hx]
      exact ih r' hpre' h

theorem has3_of_suff_true : ∀ (pre t : Str), has3 t = true → has3 (pre ++ t) = true := by
  intro pre t h
  induction pre with
  | nil => exact h
  | cons x p ih => exact has3_cons_true x ih

theorem has3_dropWhile_false (p : Nat → Bool) (l : Str) (h : has3 l = false) :
    has3 (l.dropWhile p) = false := by
  by_contra hc
  have h1 := has3_of_suff_true (l.takeWhile p) (l.dropWhile p)
    (Bool.not_eq_false _ |>.mp hc)
  rw [List.takeWhile_append_dropWhile] at h1
  rw [h1] at h
  exact Bool.noConfusion h

theorem trimRight_isPref : ∀ l : Str, trimRight l <+: l := by
  intro l
  induction l with
  | nil => exact List.prefix_refl []
  | cons c rest ih =>
    show (if trimRight rest = [] && isJsSpace c then [] else c :: trimRight rest) <+: c :: rest
    by_cases hb : trimRight rest = [] && isJsSpace c
    · rw [if_pos hb]
      exact List.nil_prefix
    · rw [if_neg hb]
      exact List.cons_prefix_cons.mpr ⟨rfl, ih⟩

theorem has3_trimRight_false (l : Str) (h : has3 l = false) :
    has3 (trimRight l) = false := by
  by_contra hc
  rw [has3_of_pref_true (trimRight l) l (trimRight_isPref l)
    (Bool.not_eq_false _ |>.mp hc)] at h
  exact Bool.noConfusion h

theorem trimRight_head? : ∀ (l : Str) (c : Nat), (trimRight l).head? = some c →
    l.head? = some c := by
  intro l c h
  cases l with
  | nil => simp [trimRight] at h
  | cons x rest =>
    rw [show trimRight (x :: rest) =
      (if trimRight rest = [] && isJsSpace x then [] else x :: trimRight rest) from rfl] at h
    by_cases hb : trimRight rest = [] && isJsSpace x
    · rw [if_pos hb] at h
      simp at h
    · rw [if_neg hb] at h
      simpa using h

theorem dropWhile_head?_false (p : Nat → Bool) : ∀ (l : Str) (c : Nat),
    (l.dropWhile p).head? = some c → p c = false := by
  intro l
  induction l with
  | nil => intro c h; simp [List.dropWhile] at h
  | cons x rest ih =>
    intro c h
    by_cases hp : p x
    · rw [List.dropWhile_cons_of_pos hp] at h
      exact ih c h
    · rw [List.dropWhile_cons_of_neg hp] at h
      simp at h
      subst h
      simpa using hp

theorem trimRight_getLast? : ∀ (l : Str) (c : Nat), (trimRight l).getLast? = some c →
    isJsSpace c = false := by
  intro l
  induction l with
  | nil => intro c h; simp [trimRight] at h
  | cons x rest ih =>
    intro c h
    rw [show trimRight (x :: rest) =
      (if trimRight rest = [] && isJsSpace x then [] else x :: trimRight rest) from rfl] at h
    by_cases hb : trimRight rest = [] && isJsSpace x
    · rw [if_pos hb] at h
      simp at h
    · rw [if_neg hb] at h
      cases ht : trimRight rest with
      | nil =>
        rw [ht] at h
        simp at h
        rw [ht] at hb
        simp at hb
        rw [← h]
        exact hb
      | cons y t =>
        rw [ht] at h
        rw [List.getLast?_cons_cons] at h
        rw [← ht] at h
        exact ih c h

theorem normalizeText_props (u : Str) :
    13 ∉ normalizeText u ∧ has3 (normalizeText u) = false ∧
    ((normalizeText u).head?.all fun c => !isJsSpace c) = true ∧
    ((normalizeText u).getLast?.all fun c => !isJsSpace c) = true := by
  have h13w : 13 ∉ collapse3 (crToLf (crlfToLf u)) :=
    collapse3Go_no_cr _ 0 (crToLf_no_cr _)
  have hh3w : has3 (collapse3 (crToLf (crlfToLf u))) = false := has3_collapse3Go _ 0
  unfold normalizeText jsTrim
  refine ⟨?_, ?_, ?_, ?_⟩
  · intro hmem
    exact h13w ((List.dropWhile_suffix isJsSpace).subset
      ((trimRight_isPref _).subset hmem))
  · exact has3_trimRight_false _ (has3_dropWhile_false _ _ hh3w)
  · cases hh : (trimRight ((collapse3 (crToLf (crlfToLf u))).dropWhile isJsSpace)).head? with
    | none => simp [hh]
    | some c =>
      have hc := dropWhile_head?_false isJsSpace _ c (trimRight_head? _ c hh)
      simp [hh, hc]
  · cases hh : (trimRight ((collapse3 (crToLf (crlfToLf u))).dropWhile isJsSpace)).getLast? with
    | none => simp [hh]
    | some c =>
      have hc := trimRight_getLast? _ c hh
      simp [hh, hc]

/-- C8 amended: every body value produced by the compound-file property
decoder (property id 0x1000) is in normalized form — it contains no CR, no
run of three or more newlines, and neither starts nor ends with
whitespace.  (MIME-path bodies are returned as decoded, without
normalization: see the counterexample.) -/
theorem c8_compound_body_normalized (data : Bytes) (ty : Nat) (v : Str)
    (h : convertPropertyValue data ty 0x1000 = some (.text v)) :
    13 ∉ v ∧ has3 v = false ∧
    (v.head?.all fun c => !isJsSpace c) = true ∧
    (v.getLast?.all fun c => !isJsSpace c) = true := by
  obtain ⟨u, rfl⟩ : ∃ u, v = normalizeText u := by
    by_cases hne : data.isEmpty = true
    · rw [convertPropertyValue, if_pos hne] at h
      exact absurd h (by simp)
    · rw [convertPropertyValue, if_neg hne] at h
      rw [if_pos (by simp)] at h
      rw [if_pos rfl] at h
      exact ⟨_, (PropValue.text.inj (Option.some.inj h)).symm⟩
  exact normalizeText_props u

/-- C8 witness: the body decoded from the bytes of `Hi` is normalized. -/
theorem c8_witness :
    13 ∉ str "Hi" ∧ has3 (str "Hi") = false ∧
    ((str "Hi").head?.all fun c => !isJsSpace c) = true ∧
    ((str "Hi").getLast?.all fun c => !isJsSpace c) = true :=
  c8_compound_body_normalized [72, 105] 0x001E (str "Hi") (by decide)
